import Mathlib

/-!
Verification development for the Bond Builder Arena simulation engine.

The simulation core lives in the Arena component (game-loop `update`,
`checkMolecules`, `undo` inside `useImperativeHandle`, `spawnAtom`,
`handlePointerDown`, `handlePointerMove`, `handlePointerUp`) together with
the constants table.  We embed the state and the operations shallowly:

* JS numbers are modelled by `ℚ` (positions, velocities, times) and `Int`
  (bond counters).  All distance comparisons in the source compare a
  Euclidean distance (or its square, in the pointer-down hit test) against a
  nonnegative threshold, so `sqrt (d2) < t` is embedded as the exactly
  equivalent `d2 < t ^ 2`.
* The per-frame force integration (wall bounce, friction, springs,
  repulsion) mutates only `x`, `y`, `vx`, `vy` and `fxScale` of atoms; it is
  embedded as a step relation allowing an arbitrary update of exactly those
  fields, which over-approximates the concrete float arithmetic and is
  sound for all bond-structure invariants proved here.
* `Math.random()` draws and `uuid()` results are passed as explicit
  parameters; freshness of generated ids is a hypothesis of the
  corresponding step (the source draws 9 base-36 characters).
* Arrays are `List`s; the JS `Set` of visited ids / session pairs is a
  `List` queried by membership; pushing onto `bondHistoryRef` and popping
  from its end is modelled with the top of the stack at the head of the
  list.
-/

namespace BondArena

/-- The seven element kinds of `AtomType` in types.ts. -/
inductive AtomType where
  | H | O | N | C | Cl | S | P
deriving DecidableEq, Repr

/-- Per-type static definition (constants.ts `ATOM_DEFS`); the CSS color
string is presentation-only and omitted. -/
structure AtomDef where
  valency : Int
  radius : ℚ
  mass : ℚ
deriving DecidableEq, Repr

/-- The `ATOM_DEFS` table from constants.ts. -/
def ATOM_DEFS : AtomType → AtomDef
  | AtomType.H => ⟨1, 20, 1⟩
  | AtomType.O => ⟨2, 28, 16⟩
  | AtomType.N => ⟨3, 29, 14⟩
  | AtomType.C => ⟨4, 30, 12⟩
  | AtomType.Cl => ⟨1, 27, 35⟩
  | AtomType.S => ⟨2, 29, 32⟩
  | AtomType.P => ⟨3, 30, 31⟩

/-- The displayed element symbol (the `symbol` field of `ATOM_DEFS`). -/
def symbolStr : AtomType → String
  | AtomType.H => "H"
  | AtomType.O => "O"
  | AtomType.N => "N"
  | AtomType.C => "C"
  | AtomType.Cl => "Cl"
  | AtomType.S => "S"
  | AtomType.P => "P"

/-- constants.ts `BOND_DISTANCE`. -/
def BOND_DISTANCE : ℚ := 70

/-- `AtomEntity` of types.ts. -/
structure AtomEntity where
  id : String
  type : AtomType
  x : ℚ
  y : ℚ
  vx : ℚ
  vy : ℚ
  currentBonds : Int
  bondedAtomIds : List String
  isDragging : Bool
  fxScale : ℚ
deriving DecidableEq, Repr

/-- `BondEntity` of types.ts. -/
structure BondEntity where
  id : String
  atom1Id : String
  atom2Id : String
  stress : ℚ
deriving DecidableEq, Repr

/-- External events emitted by the simulation core: `onScoreUpdate`,
the composition handed to the molecule identification callback, and
`onError`.  Sounds and particles are presentation-only. -/
inductive GameEvent where
  | scoreEvent (points : Nat)
  | moleculeFormed (composition : List AtomType)
  | errorEvent (reason : String)
deriving DecidableEq, Repr

/-- The mutable refs of the Arena component that carry simulation state:
`atomsRef`, `bondsRef`, `bondHistoryRef` (top of the undo stack at the
head), `draggedAtomRef`, `dragSessionBondedPairsRef` (unordered pairs
stored sorted), `mouseRef` and `lastSpawnRef`. -/
structure SimState where
  atoms : List AtomEntity
  bonds : List BondEntity
  bondHistory : List String
  draggedAtom : Option String
  session : List (String × String)
  mouse : ℚ × ℚ
  lastSpawn : ℚ
deriving DecidableEq, Repr

/-- Initial values of all refs. -/
def initState : SimState :=
  { atoms := [], bonds := [], bondHistory := [], draggedAtom := none,
    session := [], mouse := (0, 0), lastSpawn := 0 }

/-- Squared Euclidean distance between two points. -/
def dist2 (x1 y1 x2 y2 : ℚ) : ℚ := (x1 - x2) ^ 2 + (y1 - y2) ^ 2

/-- Replace the first element satisfying `p` by its image under `f`:
the shape of every `find`-then-mutate access in the source. -/
def adjustFirst (p : α → Bool) (f : α → α) : List α → List α
  | [] => []
  | x :: xs => if p x then f x :: xs else x :: adjustFirst p f xs

/-- Lexicographic comparison of strings by character code points: the
order `Array.prototype.sort` applies to the (ASCII) uuid strings. -/
def strLtB : List Char → List Char → Bool
  | [], [] => false
  | [], _ :: _ => true
  | _ :: _, [] => false
  | c :: cs, d :: ds =>
    if c.toNat < d.toNat then true
    else if d.toNat < c.toNat then false
    else strLtB cs ds

/-- The session key for an unordered pair: the source computes
`[id1, id2].sort().join('-')`; since the ids never contain `-`, the joined
string is in bijection with the sorted pair. -/
def pairKey (x y : String) : String × String :=
  if strLtB x.data y.data then (x, y) else (y, x)

/-- Membership test on the session set. -/
def sessionHas (session : List (String × String)) (p : String × String) : Bool :=
  session.any (fun q => q = p)

/-- Ids of a list of atoms. -/
def idsOf (l : List AtomEntity) : List String := l.map (fun a => a.id)

/-- Whether bond `b` touches the atom id `x`. -/
def incident (b : BondEntity) (x : String) : Bool := b.atom1Id == x || b.atom2Id == x

/-- The neighbor ids reachable from atom id `x` across single bonds
(`checkMolecules` lines: filter incident bonds, map to the other endpoint). -/
def neighborIds (bonds : List BondEntity) (x : String) : List String :=
  (bonds.filter (fun b => incident b x)).map
    (fun b => if b.atom1Id == x then b.atom2Id else b.atom1Id)

/-- `bond.atom1Id/atom2Id` connect the unordered id pair `{x, y}`. -/
def Connects (bd : BondEntity) (x y : String) : Prop :=
  (bd.atom1Id = x ∧ bd.atom2Id = y) ∨ (bd.atom1Id = y ∧ bd.atom2Id = x)

/-- Some bond connects `x` and `y`. -/
def Adj (bonds : List BondEntity) (x y : String) : Prop := ∃ bd ∈ bonds, Connects bd x y

/-- Connectivity in the bond graph (on atom ids). -/
def Reaches (bonds : List BondEntity) : String → String → Prop :=
  Relation.ReflTransGen (Adj bonds)

/-- The atom has all valency slots used (`currentBonds === def.valency`). -/
def isFull (a : AtomEntity) : Prop := a.currentBonds = (ATOM_DEFS a.type).valency

/-- The Boolean check performed per BFS node in `checkMolecules`
(`isStable` stays true iff every visited atom is saturated). -/
def fullB (a : AtomEntity) : Bool := a.currentBonds == (ATOM_DEFS a.type).valency

/-! ### Stability detector (`checkMolecules`)

The source runs, per yet-unvisited atom, a BFS with a queue (`shift` from
the front, `push` at the back) and a shared visited set; nodes are marked
visited when enqueued.  The loop provably terminates; we give the
recursion explicit fuel (large enough by `2 * atoms.length + 1`, see
`bfsAux_spec`) so that the definition is structural and computable. -/

/-- Enqueue the atoms for the given neighbor ids: look each id up in the
store, skip missing or already-visited atoms, mark the rest visited and
append them to the queue (the `for (const nid of neighbors)` loop). -/
def enqueueAll (atoms : List AtomEntity) :
    List String → List AtomEntity → List String → List AtomEntity × List String
  | [], q, v => (q, v)
  | nid :: more, q, v =>
    match atoms.find? (fun a => a.id == nid) with
    | some nA => if v.contains nA.id then enqueueAll atoms more q v
                 else enqueueAll atoms more (q ++ [nA]) (nA.id :: v)
    | none => enqueueAll atoms more q v

/-- The BFS loop of `checkMolecules`: returns the component (in visit
order), the `isStable` flag and the final visited set. -/
def bfsAux (atoms : List AtomEntity) (bonds : List BondEntity) :
    Nat → List AtomEntity → List String → List AtomEntity → Bool →
    List AtomEntity × Bool × List String
  | 0, _, v, comp, st => (comp, st, v)
  | _ + 1, [], v, comp, st => (comp, st, v)
  | fuel + 1, c :: rest, v, comp, st =>
    let step := enqueueAll atoms (neighborIds bonds c.id) rest v
    bfsAux atoms bonds fuel step.1 step.2 (comp ++ [c]) (st && fullB c)

/-- The outer `for (const atom of atomsRef.current)` loop: scan every atom
not yet visited during this invocation, collecting each component together
with its stability flag, in discovery order. -/
def scanAll (atoms : List AtomEntity) (bonds : List BondEntity) :
    List AtomEntity → List String → List (List AtomEntity × Bool) × List String
  | [], v => ([], v)
  | a :: rest, v =>
    if v.contains a.id then scanAll atoms bonds rest v
    else
      let r := bfsAux atoms bonds (2 * atoms.length + 1) [a] (a.id :: v) [] true
      let tail := scanAll atoms bonds rest r.2.2
      ((r.1, r.2.1) :: tail.1, tail.2)

/-- The components acted upon by `checkMolecules`: stable and of size
at least two (`isStable && component.length > 1`). -/
def reportedGroups (atoms : List AtomEntity) (bonds : List BondEntity) :
    List (List AtomEntity) :=
  (((scanAll atoms bonds atoms []).1.filter
      (fun g => g.2 && decide (1 < g.1.length))).map (fun g => g.1))

/-- `toRemoveAtoms`: the ids of every atom of every stable component. -/
def removedIds (atoms : List AtomEntity) (bonds : List BondEntity) : List String :=
  (reportedGroups atoms bonds).flatMap idsOf

/-- Result of a `checkMolecules` invocation. -/
structure ScanOut where
  atoms : List AtomEntity
  bonds : List BondEntity
  dragged : Option String
  events : List GameEvent
deriving DecidableEq, Repr

/-- `checkMolecules` (sans the fire-and-forget identification lookup,
whose result never feeds back into simulation state): per stable
component emit the score (`component.length * 100`) and the composition,
then remove the marked atoms, every bond touching them, and clear
`draggedAtomRef` when its atom was removed. -/
def checkMolecules (atoms : List AtomEntity) (bonds : List BondEntity)
    (dragged : Option String) : ScanOut :=
  let rem := removedIds atoms bonds
  { atoms := atoms.filter (fun a => !rem.contains a.id),
    bonds := bonds.filter (fun b => !rem.contains b.atom1Id && !rem.contains b.atom2Id),
    dragged := (match dragged with
      | some d => if rem.contains d then none else some d
      | none => none),
    events := (reportedGroups atoms bonds).flatMap
      (fun g => [GameEvent.scoreEvent (100 * g.length),
                 GameEvent.moleculeFormed (g.map (fun a => a.type))]) }

/-- Running `checkMolecules` on a state's own store. -/
def checkStep (s : SimState) : SimState :=
  let o := checkMolecules s.atoms s.bonds s.draggedAtom
  { s with atoms := o.atoms, bonds := o.bonds, draggedAtom := o.dragged }

/-! ### Bond formation (phase 4 of `update`) -/

/-- Increment `currentBonds` (`dragger.currentBonds++`). -/
def incB (a : AtomEntity) : AtomEntity := { a with currentBonds := a.currentBonds + 1 }

/-- Decrement `currentBonds`, floored at zero
(`Math.max(0, a.currentBonds - 1)`). -/
def decB (a : AtomEntity) : AtomEntity :=
  { a with currentBonds := max 0 (a.currentBonds - 1) }

/-- The candidate filter of the neighbor search: a different atom with
spare capacity, within `BOND_DISTANCE + 10` (the source compares
`sqrt(dx*dx+dy*dy) < BOND_DISTANCE + 10`; we compare squares, which is
equivalent), whose pair with the dragged atom has not bonded during this
drag session. -/
def candidatePred (session : List (String × String)) (dragger target : AtomEntity) :
    Bool :=
  !(target.id == dragger.id) &&
  decide (target.currentBonds < (ATOM_DEFS target.type).valency) &&
  decide (dist2 target.x target.y dragger.x dragger.y < (BOND_DISTANCE + 10) ^ 2) &&
  !(sessionHas session (pairKey dragger.id target.id))

/-- Result of the bond-attempt phase: the new state, emitted events, and
(for session-gating analysis) the pair that bonded, when one did. -/
structure TickOut where
  state : SimState
  events : List GameEvent
  created : Option (String × String)
deriving DecidableEq, Repr

/-- Phase 4 of `update` ("Bond Attempt"): if an atom is dragged and has
capacity, find the first candidate neighbor; on success record the pair in
the session set, append the bond, push its id on the undo history,
increment both endpoints and run `checkMolecules`. -/
def bondAttempt (s : SimState) (newBondId : String) : TickOut :=
  match s.draggedAtom with
  | none => ⟨s, [], none⟩
  | some did =>
    match s.atoms.find? (fun a => a.id == did) with
    | none => ⟨s, [], none⟩
    | some dragger =>
      if dragger.currentBonds < (ATOM_DEFS dragger.type).valency then
        match s.atoms.find? (candidatePred s.session dragger) with
        | none => ⟨s, [], none⟩
        | some neighbor =>
          let pk := pairKey dragger.id neighbor.id
          let newBonds := s.bonds ++ [⟨newBondId, dragger.id, neighbor.id, 0⟩]
          let atoms1 := adjustFirst (fun a => a.id == dragger.id) incB s.atoms
          let atoms2 := adjustFirst (fun a => a.id == neighbor.id) incB atoms1
          let sc := checkMolecules atoms2 newBonds s.draggedAtom
          ⟨{ s with
              atoms := sc.atoms, bonds := sc.bonds, draggedAtom := sc.dragged,
              bondHistory := newBondId :: s.bondHistory, session := pk :: s.session },
            sc.events, some pk⟩
      else ⟨s, [], none⟩

/-! ### Undo (`useImperativeHandle` → `undo`) -/

/-- The `while (bondHistoryRef.current.length > 0)` loop: pop ids until one
names a bond still present; then decrement both endpoints (floored at 0,
first `a1` then `a2`), splice out that bond, and stop. -/
def undoLoop :
    List String → List BondEntity → List AtomEntity →
    List String × List BondEntity × List AtomEntity
  | [], bonds, atoms => ([], bonds, atoms)
  | bid :: rest, bonds, atoms =>
    match bonds.find? (fun b => b.id == bid) with
    | some bond =>
      let atoms1 := adjustFirst (fun a => a.id == bond.atom1Id) decB atoms
      let atoms2 := adjustFirst (fun a => a.id == bond.atom2Id) decB atoms1
      (rest, bonds.eraseP (fun b => b.id == bid), atoms2)
    | none => undoLoop rest bonds atoms

/-- The exported `undo` handle. -/
def undo (s : SimState) : SimState :=
  let r := undoLoop s.bondHistory s.bonds s.atoms
  { s with bondHistory := r.1, bonds := r.2.1, atoms := r.2.2 }

/-! ### Spawner (`spawnAtom` and phase 1 of `update`) -/

/-- The weighted type table of `spawnAtom` (three entries for H, two each
for O and C, one each for N, Cl, S, P). -/
def spawnTypes : List AtomType :=
  [AtomType.H, AtomType.H, AtomType.H, AtomType.O, AtomType.O,
   AtomType.C, AtomType.C, AtomType.N, AtomType.Cl, AtomType.S, AtomType.P]

/-- The `Math.random()` draws consumed by one `spawnAtom` call, in order:
type index, edge-axis coin, edge-side coin, position along the edge, and
the two velocity components. -/
structure SpawnRands where
  rT : ℚ
  rAxis : ℚ
  rSide : ℚ
  rCoord : ℚ
  rVx : ℚ
  rVy : ℚ
deriving DecidableEq, Repr

/-- `spawnAtom`: type from the weighted table, position just outside a
random edge of the `w × h` arena, velocity components
`(Math.random() - 0.5) * 2`. -/
def spawnAtom (r : SpawnRands) (id : String) (w h : ℚ) : AtomEntity :=
  let t := spawnTypes.getD (Int.toNat ⌊r.rT * (spawnTypes.length : ℚ)⌋) AtomType.H
  let rad := (ATOM_DEFS t).radius
  let pos : ℚ × ℚ :=
    if r.rAxis > 1/2 then
      ((if r.rSide > 1/2 then -rad else w + rad), r.rCoord * h)
    else
      (r.rCoord * w, (if r.rSide > 1/2 then -rad else h + rad))
  { id := id, type := t, x := pos.1, y := pos.2,
    vx := (r.rVx - 1/2) * 2, vy := (r.rVy - 1/2) * 2,
    currentBonds := 0, bondedAtomIds := [], isDragging := false, fxScale := 0 }

/-- Phase 1 of `update`: spawn one atom when more than 1500 ms have passed
since the last spawn and the population is under 18. -/
def spawnPhase (s : SimState) (time : ℚ) (r : SpawnRands) (id : String)
    (w h : ℚ) : SimState :=
  if 1500 < time - s.lastSpawn ∧ s.atoms.length < 18 then
    { s with atoms := s.atoms ++ [spawnAtom r id w h], lastSpawn := time }
  else s

/-! ### Pointer handlers -/

/-- The hit test of `handlePointerDown` (the source already compares
squared distance against `(radius + 10) ** 2`). -/
def hitPred (x y : ℚ) (a : AtomEntity) : Bool :=
  decide (dist2 a.x a.y x y < ((ATOM_DEFS a.type).radius + 10) ^ 2)

/-- `handlePointerDown`: record the pointer, and when an atom is hit mark
it dragged, zero its velocity, set `draggedAtomRef` and clear the drag
session set. -/
def handlePointerDown (s : SimState) (x y : ℚ) : SimState :=
  let s1 := { s with mouse := (x, y) }
  match s1.atoms.find? (hitPred x y) with
  | none => s1
  | some clicked =>
    { s1 with
      atoms := adjustFirst (fun a => a.id == clicked.id)
        (fun a => { a with isDragging := true, vx := 0, vy := 0 }) s1.atoms,
      draggedAtom := some clicked.id,
      session := [] }

/-- The proximity filter of `handlePointerUp`: any other atom within
`BOND_DISTANCE + 20` (squared comparison, equivalent to the source's
`sqrt < BOND_DISTANCE + 20`). -/
def nearPred (atom target : AtomEntity) : Bool :=
  !(target.id == atom.id) &&
  decide (dist2 target.x target.y atom.x atom.y < (BOND_DISTANCE + 20) ^ 2)

/-- `bondsRef.current.some(...)`: a bond of any multiplicity joins the two
ids. -/
def isBondedB (bonds : List BondEntity) (x y : String) : Bool :=
  bonds.any (fun b => (b.atom1Id == x && b.atom2Id == y) ||
                      (b.atom1Id == y && b.atom2Id == x))

def fullMaxA : String := " is full! (Max "
def fullMaxB : String := ")"
def fullShort : String := " is full!"
def blockedMsg : String := "Bond blocked or invalid!"

/-- The diagnostic chosen by the shatter branch of `handlePointerUp`:
the neighbor's capacity is checked first, then the released atom's,
otherwise the generic message. -/
def rejectMsg (atom nearby : AtomEntity) : String :=
  if (ATOM_DEFS nearby.type).valency == nearby.currentBonds then
    symbolStr nearby.type ++ fullMaxA ++
      toString (ATOM_DEFS nearby.type).valency ++ fullMaxB
  else if (ATOM_DEFS atom.type).valency == atom.currentBonds then
    symbolStr atom.type ++ fullShort
  else blockedMsg

/-- Stop dragging. -/
def undrag (a : AtomEntity) : AtomEntity := { a with isDragging := false }

/-- The "normal fling" of the bonded branch:
`(Math.random() - 0.5) * 2` on each component. -/
def nudged (r1 r2 : ℚ) (a : AtomEntity) : AtomEntity :=
  { a with isDragging := false, vx := (r1 - 1/2) * 2, vy := (r2 - 1/2) * 2 }

/-- `handlePointerUp`: release the dragged atom; if a nearby atom exists
with no bond to it, emit one error event and apply the shatter impulse;
if a bond exists, apply only the random nudge; otherwise nothing more.
The source's impulse is `20 * (cos θ, sin θ)` for the released atom and
`-10 * (cos θ, sin θ)` for the neighbor, with `θ = atan2(dy, dx)`, i.e.
the unit vector along the separation `(dx, dy)` scaled by ±20/±10.  Over
`ℚ` the unit vector is not representable, so we keep the exact direction
and scale by the positive factor `dist` instead: the stored velocities are
`20 * (dx, dy)` and `-10 * (dx, dy)`, positive (resp. negative) multiples
of the separation axis exactly as in the source; no claim below depends on
the impulse's magnitude, and the physics step relation treats velocity
magnitudes abstractly. -/
def handlePointerUp (s : SimState) (r1 r2 : ℚ) : SimState × List GameEvent :=
  match s.draggedAtom with
  | none => (s, [])
  | some did =>
    match s.atoms.find? (fun a => a.id == did) with
    | none => ({ s with draggedAtom := none }, [])
    | some atom =>
      match s.atoms.find? (nearPred atom) with
      | none =>
        ({ s with
            atoms := adjustFirst (fun a => a.id == atom.id) undrag s.atoms,
            draggedAtom := none }, [])
      | some nearby =>
        if isBondedB s.bonds atom.id nearby.id then
          ({ s with
              atoms := adjustFirst (fun a => a.id == atom.id) (nudged r1 r2) s.atoms,
              draggedAtom := none }, [])
        else
          let dx := atom.x - nearby.x
          let dy := atom.y - nearby.y
          let atoms1 := adjustFirst (fun a => a.id == atom.id)
            (fun a => { a with isDragging := false, vx := 20 * dx, vy := 20 * dy })
            s.atoms
          let atoms2 := adjustFirst (fun a => a.id == nearby.id)
            (fun a => { a with vx := -10 * dx, vy := -10 * dy }) atoms1
          ({ s with atoms := atoms2, draggedAtom := none },
            [GameEvent.errorEvent (rejectMsg atom nearby)])

/-- The reset effect (`useEffect` on `gameActive` turning false): clears
atoms, bonds, history and session (particles are presentation-only);
`draggedAtomRef`, `mouseRef` and `lastSpawnRef` are left as they are. -/
def resetApply (s : SimState) : SimState :=
  { s with atoms := [], bonds := [], bondHistory := [], session := [] }

/-! ### The step relation and reachability -/

/-- The fields of an atom that the force integrator never writes: phases 2
and 3 of `update` mutate only `x`, `y`, `vx`, `vy` and `fxScale`. -/
def coreOf (a : AtomEntity) : String × AtomType × Int × List String :=
  (a.id, a.type, a.currentBonds, a.bondedAtomIds)

/-- Relation between an atom and its state after force integration. -/
def PhysMatch (a b : AtomEntity) : Prop := coreOf b = coreOf a

/-- Transition labels; bond creations are labelled with the unordered pair
that bonded, pointer-down and reset are distinguished because they clear
the drag-session set. -/
inductive Lab where
  | created (p : String × String)
  | downLab
  | resetLab
  | otherLab
deriving DecidableEq, Repr

/-- The label of a bond-attempt outcome. -/
def labelOfCreated : Option (String × String) → Lab
  | some p => Lab.created p
  | none => Lab.otherLab

/-- One labelled step of the engine: one phase of the game loop, a pointer
event, an undo, or the reset effect. -/
inductive LStep : SimState → Lab → SimState → Prop where
  | physics (s : SimState) (atoms2 : List AtomEntity) :
      List.Forall₂ PhysMatch s.atoms atoms2 →
      LStep s Lab.otherLab { s with atoms := atoms2 }
  | spawn (s : SimState) (time : ℚ) (r : SpawnRands) (id : String) (w h : ℚ) :
      (∀ a ∈ s.atoms, a.id ≠ id) →
      LStep s Lab.otherLab (spawnPhase s time r id w h)
  | bondTick (s : SimState) (newBondId : String) :
      (∀ b ∈ s.bonds, b.id ≠ newBondId) →
      LStep s (labelOfCreated (bondAttempt s newBondId).created)
        (bondAttempt s newBondId).state
  | pointerDown (s : SimState) (x y : ℚ) :
      LStep s Lab.downLab (handlePointerDown s x y)
  | pointerMove (s : SimState) (x y : ℚ) :
      LStep s Lab.otherLab { s with mouse := (x, y) }
  | pointerUp (s : SimState) (r1 r2 : ℚ) :
      LStep s Lab.otherLab (handlePointerUp s r1 r2).1
  | undoCall (s : SimState) : LStep s Lab.otherLab (undo s)
  | reset (s : SimState) : LStep s Lab.resetLab (resetApply s)

/-- Reachable engine states. -/
inductive Reach : SimState → Prop where
  | init : Reach initState
  | step {s s2 : SimState} {l : Lab} : Reach s → LStep s l s2 → Reach s2

/-- A step that can occur strictly inside one drag gesture: anything but a
new pointer-down or an engine reset. -/
def GStep (s s2 : SimState) : Prop :=
  ∃ l, LStep s l s2 ∧ l ≠ Lab.downLab ∧ l ≠ Lab.resetLab

/-- Any number of in-gesture steps. -/
def GSteps : SimState → SimState → Prop := Relation.ReflTransGen GStep

/-! ### Declarative stability -/

/-- `g` is a stable component of the store: a duplicate-free set of at
least two existing atoms, pairwise connected, closed under connectivity
within the store, all saturated. -/
def IsStableComponent (atoms : List AtomEntity) (bonds : List BondEntity)
    (g : List AtomEntity) : Prop :=
  2 ≤ g.length ∧ (idsOf g).Nodup ∧ (∀ a ∈ g, a ∈ atoms) ∧ (∀ a ∈ g, isFull a) ∧
  (∀ a ∈ g, ∀ b ∈ g, Reaches bonds a.id b.id) ∧
  (∀ a ∈ g, ∀ b ∈ atoms, Reaches bonds a.id b.id → b ∈ g)

/-- Atom `a` sits in some stable component: it has a distinct connected
partner and every atom connected to it is saturated. -/
def StableAt (atoms : List AtomEntity) (bonds : List BondEntity)
    (a : AtomEntity) : Prop :=
  (∃ b ∈ atoms, b.id ≠ a.id ∧ Reaches bonds a.id b.id) ∧
  (∀ b ∈ atoms, Reaches bonds a.id b.id → isFull b)

/-- The structural well-formedness invariant of an atom/bond store. -/
structure StoreInv (atoms : List AtomEntity) (bonds : List BondEntity) : Prop where
  uidAtoms : (idsOf atoms).Nodup
  uidBonds : (bonds.map (fun b => b.id)).Nodup
  bondsWf : ∀ bd ∈ bonds, bd.atom1Id ≠ bd.atom2Id ∧
    (∃ a ∈ atoms, a.id = bd.atom1Id) ∧ (∃ a ∈ atoms, a.id = bd.atom2Id)
  countOk : ∀ a ∈ atoms,
    a.currentBonds = (bonds.countP (fun b => incident b a.id) : Int)
  capOk : ∀ a ∈ atoms, a.currentBonds ≤ (ATOM_DEFS a.type).valency
  bondedEmpty : ∀ a ∈ atoms, a.bondedAtomIds = []

/-- The full invariant of reachable states: a well-formed store in which no
stable component is present (the detector ran to quiescence). -/
structure WF (s : SimState) : Prop where
  store : StoreInv s.atoms s.bonds
  noStable : ∀ a ∈ s.atoms, ¬ StableAt s.atoms s.bonds a

end BondArena

namespace BondArena

/-! ### Concrete states used by witnesses and counterexamples -/

/-- A hydrogen atom spawned just outside the left edge of an 800 × 600
arena (`rsH` draws below). -/
def atomA1 : AtomEntity :=
  { id := "a1", type := AtomType.H, x := -20, y := 50, vx := 0, vy := 0,
    currentBonds := 0, bondedAtomIds := [], isDragging := false, fxScale := 0 }

/-- An oxygen atom spawned just outside the left edge, 8 px from `atomA1`. -/
def atomA2 : AtomEntity :=
  { id := "a2", type := AtomType.O, x := -28, y := 50, vx := 0, vy := 0,
    currentBonds := 0, bondedAtomIds := [], isDragging := false, fxScale := 0 }

/-- Draws producing a hydrogen on the left edge at `y = 50` with zero
velocity. -/
def rsH : SpawnRands := ⟨0, 1, 1, 1/12, 1/2, 1/2⟩

/-- Draws producing an oxygen on the left edge at `y = 50` with zero
velocity. -/
def rsO : SpawnRands := ⟨4/11, 1, 1, 1/12, 1/2, 1/2⟩

def demoA : SimState := { initState with atoms := [atomA1], lastSpawn := 2000 }

def demoB : SimState := { demoA with atoms := [atomA1, atomA2], lastSpawn := 4000 }

def atomA1g : AtomEntity := { atomA1 with isDragging := true }

/-- `demoB` after pressing the pointer on `atomA1`. -/
def demoC : SimState :=
  { demoB with
    atoms := [atomA1g, atomA2], draggedAtom := some "a1",
    session := [], mouse := (-20, 50) }

/-- `demoC` after one bond-attempt tick: a single H–O bond exists. -/
def demoD : SimState :=
  { demoC with
    atoms := [{ atomA1g with currentBonds := 1 }, { atomA2 with currentBonds := 1 }],
    bonds := [⟨"b1", "a1", "a2", 0⟩], bondHistory := ["b1"],
    session := [("a1", "a2")] }

/-- Helper for building literal atoms. -/
def mkAtom (id : String) (t : AtomType) (x y : ℚ) (cb : Int) : AtomEntity :=
  { id := id, type := t, x := x, y := y, vx := 0, vy := 0,
    currentBonds := cb, bondedAtomIds := [], isDragging := false, fxScale := 1 }

/-- A hypothetical store in which an undo target (`bb`) coexists with an
already-stable H–H pair: exhibits that `undo` performs no stability scan. -/
def sBad : SimState :=
  { atoms := [mkAtom "x" AtomType.O 0 0 1, mkAtom "y" AtomType.O 50 0 1,
              mkAtom "h1" AtomType.H 200 0 1, mkAtom "h2" AtomType.H 250 0 1],
    bonds := [⟨"bb", "x", "y", 0⟩, ⟨"hh", "h1", "h2", 0⟩],
    bondHistory := ["bb"], draggedAtom := none, session := [],
    mouse := (0, 0), lastSpawn := 0 }

/-- A saturated water component (H–O–H) for exercising the detector. -/
def waterAtoms : List AtomEntity :=
  [mkAtom "h1" AtomType.H 0 0 1, mkAtom "o" AtomType.O 50 0 2,
   mkAtom "h2" AtomType.H 100 0 1]

def waterBonds : List BondEntity :=
  [⟨"b1", "h1", "o", 0⟩, ⟨"b2", "o", "h2", 0⟩]

/-- A release scenario: dragged hydrogen `u1` sits 50 px from a saturated
hydrogen `u2`, with no bond between them. -/
def upAtom1 : AtomEntity :=
  { id := "u1", type := AtomType.H, x := 0, y := 0, vx := 0, vy := 0,
    currentBonds := 0, bondedAtomIds := [], isDragging := true, fxScale := 1 }

def upAtom2 : AtomEntity := mkAtom "u2" AtomType.H 50 0 1

def upState : SimState :=
  { atoms := [upAtom1, upAtom2], bonds := [], bondHistory := [],
    draggedAtom := some "u1", session := [], mouse := (0, 0), lastSpawn := 0 }

/-- The same scenario with an existing bond between the two atoms. -/
def upStateBonded : SimState :=
  { upState with
    atoms := [{ upAtom1 with currentBonds := 1 },
              { upAtom2 with currentBonds := 2 }],
    bonds := [⟨"ub", "u1", "u2", 0⟩] }

/-- Spawn draws demonstrating an outward initial velocity: the atom
appears outside the left edge yet its velocity points further left. -/
def rsOut : SpawnRands := ⟨0, 1, 1, 1/12, 0, 1/2⟩

/-- Reading of "small random inward velocity" for an atom sitting outside
one edge of the `w × h` arena.  Modelled from the spec: a velocity
"directed into the arena" must point from the spawn edge toward the
interior. -/
def inwardVelocity (w h : ℚ) (a : AtomEntity) : Prop :=
  (a.x < 0 → 0 < a.vx) ∧ (w < a.x → a.vx < 0) ∧
  (a.y < 0 → 0 < a.vy) ∧ (h < a.y → a.vy < 0)

end BondArena

namespace BondArena

/-- Number of atoms not yet visited: the termination measure of the BFS. -/
def unvis (atoms : List AtomEntity) (v : List String) : Nat :=
  atoms.countP (fun a => !v.contains a.id)

/-! ### Evaluation lemmas for the concrete states -/

lemma spawn1_eq : spawnPhase initState 2000 rsH "a1" 800 600 = demoA := by
  rw [spawnPhase, if_pos]
  · have h : spawnAtom rsH "a1" 800 600 = atomA1 := by
      rw [spawnAtom, atomA1]
      norm_num [spawnTypes, ATOM_DEFS, rsH]
    rw [h]; rfl
  · constructor
    · norm_num [initState]
    · decide

lemma spawn2_eq : spawnPhase demoA 4000 rsO "a2" 800 600 = demoB := by
  rw [spawnPhase, if_pos]
  · have h : spawnAtom rsO "a2" 800 600 = atomA2 := by
      rw [spawnAtom, atomA2]
      norm_num [spawnTypes, ATOM_DEFS, rsO]
      all_goals decide
    rw [h]; rfl
  · constructor
    · norm_num [demoA, initState]
    · decide

lemma hit1 : hitPred (-20) 50 atomA1 = true := by with_unfolding_all decide

lemma down_eq : handlePointerDown demoB (-20) 50 = demoC := by
  simp only [handlePointerDown, demoB, demoA, initState, List.find?, hit1]
  decide

lemma candA1 : candidatePred [] atomA1g atomA1g = false := by decide

lemma candA2 : candidatePred [] atomA1g atomA2 = true := by with_unfolding_all decide

lemma gid : atomA1g.id = "a1" := rfl

lemma gid2 : atomA2.id = "a2" := rfl

lemma beq11 : (("a1" : String) == "a1") = true := by decide

lemma beq21 : (("a2" : String) == "a1") = false := by decide

lemma bond_eq : bondAttempt demoC "b1" = ⟨demoD, [], some ("a1", "a2")⟩ := by
  simp only [bondAttempt, demoC, demoB, demoA, initState, List.find?, gid, gid2,
    beq11, beq21, candA1, candA2]
  decide

lemma reach_demoA : Reach demoA := by
  have h := Reach.step Reach.init (LStep.spawn initState 2000 rsH "a1" 800 600 (by decide))
  rwa [spawn1_eq] at h

lemma reach_demoB : Reach demoB := by
  have h := Reach.step reach_demoA (LStep.spawn demoA 4000 rsO "a2" 800 600 (by decide))
  rwa [spawn2_eq] at h

lemma reach_demoC : Reach demoC := by
  have h := Reach.step reach_demoB (LStep.pointerDown demoB (-20) 50)
  rwa [down_eq] at h

lemma reach_demoD : Reach demoD := by
  have h := Reach.step reach_demoC (LStep.bondTick demoC "b1" (by decide))
  rwa [show (bondAttempt demoC "b1").state = demoD from by rw [bond_eq]] at h

end BondArena

namespace BondArena

/-! ### Basic lemmas about the list helpers -/

lemma contains_iff (v : List String) (x : String) : v.contains x = true ↔ x ∈ v :=
  List.elem_iff

lemma sessionHas_iff (s : List (String × String)) (p : String × String) :
    sessionHas s p = true ↔ p ∈ s := by
  simp [sessionHas, List.any_eq_true]

lemma adjustFirst_of_forall_neg {p : α → Bool} {f : α → α} :
    ∀ {l : List α}, (∀ x ∈ l, p x = false) → adjustFirst p f l = l
  | [], _ => rfl
  | x :: xs, h => by
    have hx := h x (List.mem_cons_self x xs)
    simp only [adjustFirst, hx, Bool.false_eq_true, if_false, List.cons.injEq, true_and]
    exact adjustFirst_of_forall_neg fun y hy => h y (List.mem_cons_of_mem _ hy)

lemma adjustFirst_append_cons {p : α → Bool} {f : α → α} :
    ∀ (l₁ : List α) (a : α) (l₂ : List α), (∀ x ∈ l₁, p x = false) → p a = true →
      adjustFirst p f (l₁ ++ a :: l₂) = l₁ ++ f a :: l₂
  | [], a, l₂, _, ha => by simp [adjustFirst, ha]
  | x :: l₁, a, l₂, h1, ha => by
    have hx := h1 x (List.mem_cons_self x l₁)
    simp only [List.cons_append, adjustFirst, hx, Bool.false_eq_true, if_false,
      List.cons.injEq, true_and]
    exact adjustFirst_append_cons l₁ a l₂ (fun y hy => h1 y (List.mem_cons_of_mem _ hy)) ha

lemma eraseP_append_cons {p : α → Bool} :
    ∀ (l₁ : List α) (a : α) (l₂ : List α), (∀ x ∈ l₁, p x = false) → p a = true →
      (l₁ ++ a :: l₂).eraseP p = l₁ ++ l₂
  | [], a, l₂, _, ha => by simp [List.eraseP_cons, ha]
  | x :: l₁, a, l₂, h1, ha => by
    have hx := h1 x (List.mem_cons_self x l₁)
    simp only [List.cons_append, List.eraseP_cons, hx, cond_false, List.cons.injEq, true_and]
    exact eraseP_append_cons l₁ a l₂ (fun y hy => h1 y (List.mem_cons_of_mem _ hy)) ha

lemma find?_split {p : α → Bool} :
    ∀ {l : List α} {a : α}, l.find? p = some a →
      ∃ l₁ l₂, l = l₁ ++ a :: l₂ ∧ (∀ x ∈ l₁, p x = false) ∧ p a = true
  | [], a, h => by simp [List.find?] at h
  | x :: xs, a, h => by
    by_cases hx : p x
    · rw [List.find?_cons_of_pos _ hx] at h
      cases h
      exact ⟨[], xs, rfl, by simp, hx⟩
    · rw [List.find?_cons_of_neg _ hx] at h
      obtain ⟨l₁, l₂, rfl, h1, h2⟩ := find?_split h
      refine ⟨x :: l₁, l₂, rfl, fun y hy => ?_, h2⟩
      rcases List.mem_cons.mp hy with rfl | hy
      · exact Bool.eq_false_iff.mpr hx
      · exact h1 y hy

lemma adjustFirst_map_of_invariant {p : α → Bool} {f : α → α} {g : α → β}
    (hg : ∀ x, g (f x) = g x) : ∀ (l : List α), (adjustFirst p f l).map g = l.map g
  | [] => rfl
  | x :: xs => by
    by_cases hx : p x
    · simp [adjustFirst, hx, hg]
    · simp [adjustFirst, hx, adjustFirst_map_of_invariant hg xs]

lemma adjustFirst_sublist_mem {p : α → Bool} {f : α → α} :
    ∀ {l : List α} {y : α}, y ∈ adjustFirst p f l → y ∈ l ∨ ∃ x ∈ l, p x = true ∧ y = f x
  | [], y, h => by simp [adjustFirst] at h
  | x :: xs, y, h => by
    by_cases hx : p x
    · simp only [adjustFirst, hx, if_true] at h
      rcases List.mem_cons.mp h with rfl | h
      · exact Or.inr ⟨x, List.mem_cons_self x xs, hx, rfl⟩
      · exact Or.inl (List.mem_cons_of_mem _ h)
    · simp only [adjustFirst, hx, if_false] at h
      rcases List.mem_cons.mp h with rfl | h
      · exact Or.inl (List.mem_cons_self _ _)
      · rcases adjustFirst_sublist_mem h with h | ⟨z, hz, hpz, rfl⟩
        · exact Or.inl (List.mem_cons_of_mem _ h)
        · exact Or.inr ⟨z, List.mem_cons_of_mem _ hz, hpz, rfl⟩

lemma sum_map_add_int (g h : β → Int) :
    ∀ bs : List β, (bs.map (fun b => g b + h b)).sum = (bs.map g).sum + (bs.map h).sum
  | [] => by simp
  | b :: bs => by
    simp only [List.map_cons, List.sum_cons, sum_map_add_int g h bs]
    ring

lemma sum_map_ite_countP (f : α → β → Bool) (a : α) :
    ∀ bs : List β,
      (bs.map (fun b => if f a b then (1 : Int) else 0)).sum = (bs.countP (f a) : Int)
  | [] => by simp
  | b :: bs => by
    simp only [List.map_cons, List.sum_cons, List.countP_cons,
      sum_map_ite_countP f a bs]
    by_cases hb : f a b
    · simp [hb]; ring
    · simp [hb]

/-- Double counting an incidence matrix: summing per-row counts equals
summing per-column counts. -/
lemma sum_countP_swap (f : α → β → Bool) :
    ∀ (as : List α) (bs : List β),
      ((as.map (fun a => (bs.countP (f a) : Int))).sum)
        = ((bs.map (fun b => (as.countP (fun a => f a b) : Int))).sum)
  | [], bs => by
    induction bs with
    | nil => rfl
    | cons b bs ih => simp only [List.map_cons, List.sum_cons, List.countP_nil] at ih ⊢; simpa using ih
  | a :: as, bs => by
    have ih := sum_countP_swap f as bs
    have h1 : ∀ b : β, ((List.countP (fun x => f x b) (a :: as) : Nat) : Int)
        = (List.countP (fun x => f x b) as : Int) + (if f a b then (1 : Int) else 0) := by
      intro b
      rw [List.countP_cons]
      by_cases hb : f a b <;> simp [hb]
    calc ((a :: as).map fun x => (bs.countP (f x) : Int)).sum
        = (bs.countP (f a) : Int) + (as.map fun x => (bs.countP (f x) : Int)).sum := by
          simp [List.map_cons]
      _ = (bs.map fun b => if f a b then (1 : Int) else 0).sum
            + (bs.map fun b => (as.countP (fun x => f x b) : Int)).sum := by
          rw [sum_map_ite_countP, ih]
      _ = (bs.map fun b => ((a :: as).countP (fun x => f x b) : Int)).sum := by
          rw [← sum_map_add_int]
          apply congrArg List.sum
          apply List.map_congr_left
          intro b _
          rw [h1 b]
          ring

lemma eq_of_mem_ids_nodup {l : List AtomEntity} (h : (idsOf l).Nodup) {a b : AtomEntity}
    (ha : a ∈ l) (hb : b ∈ l) (hid : a.id = b.id) : a = b := by
  induction l with
  | nil => cases ha
  | cons x xs ih =>
    simp only [idsOf, List.map_cons, List.nodup_cons] at h
    rcases List.mem_cons.mp ha with rfl | ha' <;> rcases List.mem_cons.mp hb with rfl | hb'
    · rfl
    · exfalso
      apply h.1
      rw [hid]
      exact List.mem_map_of_mem (fun t => t.id) hb'
    · exfalso
      apply h.1
      rw [← hid]
      exact List.mem_map_of_mem (fun t => t.id) ha'
    · exact ih h.2 ha' hb'

end BondArena

namespace BondArena

/-! ### Lemmas about the bond graph -/

lemma connects_symm {bd : BondEntity} {x y : String} (h : Connects bd x y) :
    Connects bd y x := h.symm

lemma adj_symm {bonds : List BondEntity} {x y : String} (h : Adj bonds x y) :
    Adj bonds y x := by
  obtain ⟨bd, hbd, hc⟩ := h
  exact ⟨bd, hbd, connects_symm hc⟩

lemma reaches_symm {bonds : List BondEntity} {x y : String}
    (h : Reaches bonds x y) : Reaches bonds y x := by
  induction h with
  | refl => exact Relation.ReflTransGen.refl
  | tail _ hadj ih => exact Relation.ReflTransGen.head (adj_symm hadj) ih

lemma reaches_mono {bonds2 bonds : List BondEntity}
    (hsub : ∀ bd ∈ bonds2, bd ∈ bonds) {x y : String}
    (h : Reaches bonds2 x y) : Reaches bonds x y := by
  refine Relation.ReflTransGen.mono ?_ h
  intro a b ⟨bd, hbd, hc⟩
  exact ⟨bd, hsub bd hbd, hc⟩

lemma mem_neighborIds_iff {bonds : List BondEntity} {x y : String} :
    y ∈ neighborIds bonds x ↔ Adj bonds x y := by
  simp only [neighborIds, List.mem_map, List.mem_filter, Adj, Connects, incident,
    Bool.or_eq_true, beq_iff_eq]
  constructor
  · rintro ⟨bd, ⟨hbd, hinc⟩, hother⟩
    refine ⟨bd, hbd, ?_⟩
    by_cases h1 : bd.atom1Id = x
    · simp only [h1, if_pos, beq_self_eq_true, if_true] at hother
      exact Or.inl ⟨h1, hother⟩
    · have : (bd.atom1Id == x) = false := by simp [h1]
      rw [if_neg (by simp [h1])] at hother
      rcases hinc with h | h
      · exact absurd h h1
      · exact Or.inr ⟨hother, h⟩
  · rintro ⟨bd, hbd, hc | hc⟩
    · exact ⟨bd, ⟨hbd, Or.inl hc.1⟩, by simp [hc.1, hc.2]⟩
    · refine ⟨bd, ⟨hbd, Or.inr hc.2⟩, ?_⟩
      by_cases h1 : bd.atom1Id = x
      · simp only [h1, beq_self_eq_true, if_true]
        rw [hc.2, ← h1, hc.1]
      · rw [if_neg h1]
        exact hc.1

end BondArena

namespace BondArena

/-! ### The BFS of the stability detector computes connected components -/

lemma countP_lt_of_witness {p q : α → Bool} :
    ∀ {l : List α}, (∀ a ∈ l, p a = true → q a = true) →
      ∀ {w : α}, w ∈ l → q w = true → p w = false →
        List.countP p l < List.countP q l
  | [], _, w, hw, _, _ => by cases hw
  | x :: xs, hpq, w, hw, hqw, hpw => by
    rcases List.mem_cons.mp hw with rfl | hw'
    · have h1 : List.countP p xs ≤ List.countP q xs :=
        List.countP_mono_left fun a ha hpa => hpq a (List.mem_cons_of_mem _ ha) hpa
      simp only [List.countP_cons, hqw, hpw, Bool.false_eq_true, if_true, if_false]
      omega
    · have h1 : List.countP p xs < List.countP q xs :=
        countP_lt_of_witness (fun a ha hpa => hpq a (List.mem_cons_of_mem _ ha) hpa)
          hw' hqw hpw
      have h2 : (if p x = true then 1 else 0) ≤ (if q x = true then 1 else 0) := by
        by_cases hx : p x
        · rw [if_pos hx, if_pos (hpq x (List.mem_cons_self x xs) hx)]
        · rw [if_neg hx]
          exact Nat.zero_le _
      simp only [List.countP_cons]
      omega

lemma contains_false_iff (v : List String) (x : String) :
    v.contains x = false ↔ x ∉ v := by
  constructor
  · intro h hc
    rw [(contains_iff v x).mpr hc] at h
    cases h
  · intro h
    cases hcv : v.contains x
    · rfl
    · exact absurd ((contains_iff v x).mp hcv) h

lemma not_contains_iff (v : List String) (x : String) :
    ((!v.contains x) = true) ↔ x ∉ v := by
  rw [Bool.not_eq_true', contains_false_iff]

lemma unvis_cons_lt {atoms : List AtomEntity} {x : String} {v : List String}
    {w : AtomEntity} (hw : w ∈ atoms) (hid : w.id = x) (hx : ¬ x ∈ v) :
    unvis atoms (x :: v) < unvis atoms v := by
  refine countP_lt_of_witness ?_ hw ?_ ?_
  · intro a _ hpa
    rw [not_contains_iff] at hpa ⊢
    exact fun hc => hpa (List.mem_cons_of_mem _ hc)
  · rw [not_contains_iff, hid]
    exact hx
  · rw [← Bool.not_eq_true, not_contains_iff, hid]
    intro hc
    exact hc (List.mem_cons_self x v)

lemma unvis_mono {atoms : List AtomEntity} {v v2 : List String}
    (h : ∀ x ∈ v, x ∈ v2) : unvis atoms v2 ≤ unvis atoms v := by
  refine List.countP_mono_left fun a _ hpa => ?_
  rw [not_contains_iff] at hpa ⊢
  exact fun hc => hpa (h a.id hc)

lemma enqueueAll_cons_none {atoms : List AtomEntity} {nid : String}
    (hfind : atoms.find? (fun a => a.id == nid) = none) (more : List String)
    (q : List AtomEntity) (v : List String) :
    enqueueAll atoms (nid :: more) q v = enqueueAll atoms more q v := by
  rw [enqueueAll, hfind]

lemma enqueueAll_cons_vis {atoms : List AtomEntity} {nid : String} {nA : AtomEntity}
    {v : List String} (hfind : atoms.find? (fun a => a.id == nid) = some nA)
    (hvis : v.contains nA.id = true) (more : List String) (q : List AtomEntity) :
    enqueueAll atoms (nid :: more) q v = enqueueAll atoms more q v := by
  rw [enqueueAll, hfind]
  exact if_pos hvis

lemma enqueueAll_cons_new {atoms : List AtomEntity} {nid : String} {nA : AtomEntity}
    {v : List String} (hfind : atoms.find? (fun a => a.id == nid) = some nA)
    (hvis : ¬ v.contains nA.id = true) (more : List String) (q : List AtomEntity) :
    enqueueAll atoms (nid :: more) q v = enqueueAll atoms more (q ++ [nA]) (nA.id :: v) := by
  rw [enqueueAll, hfind]
  exact if_neg hvis

/-- Everything the invariant proofs need about one enqueue pass. -/
lemma enqueueAll_spec (atoms : List AtomEntity) :
    ∀ (nids : List String) (q : List AtomEntity) (v : List String),
      ∃ Δ : List AtomEntity,
        (enqueueAll atoms nids q v).1 = q ++ Δ ∧
        (∀ x : String, x ∈ (enqueueAll atoms nids q v).2 ↔ x ∈ v ∨ x ∈ idsOf Δ) ∧
        (∀ a ∈ Δ, a ∈ atoms ∧ a.id ∈ nids ∧ a.id ∉ v) ∧
        (idsOf Δ).Nodup ∧
        (∀ n ∈ nids, (∃ a ∈ atoms, a.id = n) → n ∈ (enqueueAll atoms nids q v).2) ∧
        (∀ x ∈ v, x ∈ (enqueueAll atoms nids q v).2) ∧
        2 * unvis atoms (enqueueAll atoms nids q v).2 + ((enqueueAll atoms nids q v).1).length
          ≤ 2 * unvis atoms v + q.length
  | [], q, v =>
    ⟨[], by simp [enqueueAll], fun x => by simp [enqueueAll, idsOf], by simp,
      by simp [idsOf], fun n hn => absurd hn (List.not_mem_nil n),
      fun x hx => hx, Nat.le_refl _⟩
  | nid :: more, q, v => by
    cases hfind : atoms.find? (fun a => a.id == nid) with
    | none =>
      rw [enqueueAll_cons_none hfind more q v]
      obtain ⟨Δ, h1, h2, h3, h4, h5, h6, h7⟩ := enqueueAll_spec atoms more q v
      refine ⟨Δ, h1, h2, ?_, h4, ?_, h6, h7⟩
      · exact fun a ha => ⟨(h3 a ha).1, List.mem_cons_of_mem _ (h3 a ha).2.1, (h3 a ha).2.2⟩
      · intro n hn hex
        rcases List.mem_cons.mp hn with rfl | hn'
        · exfalso
          obtain ⟨a, ha, rfl⟩ := hex
          have := List.find?_eq_none.mp hfind a ha
          simp at this
        · exact h5 n hn' hex
    | some nA =>
      have hnA : nA ∈ atoms ∧ nA.id = nid := by
        refine ⟨List.mem_of_find?_eq_some hfind, ?_⟩
        have := List.find?_some hfind
        simpa using this
      by_cases hvis : v.contains nA.id
      · rw [enqueueAll_cons_vis hfind hvis more q]
        obtain ⟨Δ, h1, h2, h3, h4, h5, h6, h7⟩ := enqueueAll_spec atoms more q v
        refine ⟨Δ, h1, h2, ?_, h4, ?_, h6, h7⟩
        · exact fun a ha => ⟨(h3 a ha).1, List.mem_cons_of_mem _ (h3 a ha).2.1, (h3 a ha).2.2⟩
        · intro n hn hex
          rcases List.mem_cons.mp hn with rfl | hn'
          · exact h6 n (hnA.2 ▸ (contains_iff _ _).mp hvis)
          · exact h5 n hn' hex
      · rw [enqueueAll_cons_new hfind hvis more q]
        obtain ⟨Δ, h1, h2, h3, h4, h5, h6, h7⟩ :=
          enqueueAll_spec atoms more (q ++ [nA]) (nA.id :: v)
        have hnotv : nA.id ∉ v := fun hc => hvis ((contains_iff _ _).mpr hc)
        refine ⟨nA :: Δ, ?_, ?_, ?_, ?_, ?_, ?_, ?_⟩
        · rw [h1]; simp
        · intro x
          rw [h2 x]
          simp only [List.mem_cons, idsOf, List.map_cons]
          constructor
          · rintro ((rfl | hx) | hx)
            · exact Or.inr (Or.inl rfl)
            · exact Or.inl hx
            · exact Or.inr (Or.inr hx)
          · rintro (hx | hx)
            · exact Or.inl (Or.inr hx)
            · rcases hx with rfl | hx
              · exact Or.inl (Or.inl rfl)
              · exact Or.inr hx
        · intro a ha
          rcases List.mem_cons.mp ha with rfl | ha'
          · exact ⟨hnA.1, hnA.2 ▸ List.mem_cons_self _ _, hnotv⟩
          · obtain ⟨q1, q2, q3⟩ := h3 a ha'
            refine ⟨q1, List.mem_cons_of_mem _ q2, fun hc => q3 (List.mem_cons_of_mem _ hc)⟩
        · simp only [idsOf, List.map_cons, List.nodup_cons]
          refine ⟨fun hc => ?_, h4⟩
          obtain ⟨a, ha, hev⟩ := List.mem_map.mp hc
          exact (h3 a ha).2.2 (hev ▸ List.mem_cons_self _ _)
        · intro n hn hex
          rcases List.mem_cons.mp hn with rfl | hn'
          · exact h6 n (hnA.2 ▸ List.mem_cons_self _ _)
          · exact h5 n hn' hex
        · exact fun x hx => h6 x (List.mem_cons_of_mem _ hx)
        · have hlt : unvis atoms (nA.id :: v) < unvis atoms v :=
            unvis_cons_lt hnA.1 rfl hnotv
          have := h7
          simp only [List.length_append, List.length_cons, List.length_nil] at this ⊢
          omega

end BondArena

namespace BondArena

lemma idsOf_append (l₁ l₂ : List AtomEntity) : idsOf (l₁ ++ l₂) = idsOf l₁ ++ idsOf l₂ := by
  simp [idsOf]

lemma adj_target_exists {atoms : List AtomEntity} {bonds : List BondEntity}
    (Hex : ∀ bd ∈ bonds, (∃ a ∈ atoms, a.id = bd.atom1Id) ∧ (∃ a ∈ atoms, a.id = bd.atom2Id))
    {x y : String} (h : Adj bonds x y) : ∃ a ∈ atoms, a.id = y := by
  obtain ⟨bd, hbd, hc⟩ := h
  rcases hc with ⟨_, h2⟩ | ⟨h1, _⟩
  · exact h2 ▸ (Hex bd hbd).2
  · exact h1 ▸ (Hex bd hbd).1

/-- The BFS inner loop, fully specified: starting from a queue whose
members are reachable from the root and a visited set `v` covering exactly
the outer visited set `V₀` plus the processed and queued atoms, it returns
the processed atoms extended by everything reachable, with the final
visited set, adjacency closure, and the saturation flag. -/
lemma bfsAux_spec (atoms : List AtomEntity) (bonds : List BondEntity)
    (Hex : ∀ bd ∈ bonds,
      (∃ a ∈ atoms, a.id = bd.atom1Id) ∧ (∃ a ∈ atoms, a.id = bd.atom2Id))
    (V₀ : List String) (r : String) :
    ∀ (fuel : Nat) (q : List AtomEntity) (v : List String) (comp : List AtomEntity)
      (st : Bool),
      2 * unvis atoms v + q.length ≤ fuel →
      (∀ a ∈ comp ++ q, a ∈ atoms ∧ Reaches bonds r a.id) →
      (∀ x, x ∈ v ↔ x ∈ V₀ ∨ x ∈ idsOf (comp ++ q)) →
      (idsOf (comp ++ q)).Nodup →
      (∀ x ∈ V₀, x ∉ idsOf (comp ++ q)) →
      (∀ a ∈ comp, ∀ y, Adj bonds a.id y → y ∈ v) →
      (st = true ↔ ∀ a ∈ comp, isFull a) →
      (∀ a ∈ (bfsAux atoms bonds fuel q v comp st).1,
          a ∈ atoms ∧ Reaches bonds r a.id) ∧
      (∀ x, x ∈ (bfsAux atoms bonds fuel q v comp st).2.2 ↔
          x ∈ V₀ ∨ x ∈ idsOf (bfsAux atoms bonds fuel q v comp st).1) ∧
      (idsOf (bfsAux atoms bonds fuel q v comp st).1).Nodup ∧
      (∀ x ∈ V₀, x ∉ idsOf (bfsAux atoms bonds fuel q v comp st).1) ∧
      (∀ a ∈ (bfsAux atoms bonds fuel q v comp st).1, ∀ y, Adj bonds a.id y →
          y ∈ (bfsAux atoms bonds fuel q v comp st).2.2) ∧
      ((bfsAux atoms bonds fuel q v comp st).2.1 = true ↔
          ∀ a ∈ (bfsAux atoms bonds fuel q v comp st).1, isFull a) ∧
      (∀ x ∈ v, x ∈ (bfsAux atoms bonds fuel q v comp st).2.2)
  | 0, q, v, comp, st => by
    intro Hfuel Hq Hv Hnd Hdisj Hcl Hst
    have hq : q = [] := by
      cases q with
      | nil => rfl
      | cons a l => simp only [List.length_cons] at Hfuel; omega
    subst hq
    simp only [List.append_nil] at Hq Hv Hnd Hdisj
    exact ⟨Hq, Hv, Hnd, Hdisj, fun a ha y hadj => Hcl a ha y hadj, Hst,
      fun x hx => hx⟩
  | fuel + 1, [], v, comp, st => by
    intro Hfuel Hq Hv Hnd Hdisj Hcl Hst
    simp only [List.append_nil] at Hq Hv Hnd Hdisj
    exact ⟨Hq, Hv, Hnd, Hdisj, fun a ha y hadj => Hcl a ha y hadj, Hst,
      fun x hx => hx⟩
  | fuel + 1, c :: rest, v, comp, st => by
    intro Hfuel Hq Hv Hnd Hdisj Hcl Hst
    obtain ⟨Δ, e1, e2, e3, e4, e5, e6, e7⟩ :=
      enqueueAll_spec atoms (neighborIds bonds c.id) rest v
    have hcatoms : c ∈ atoms ∧ Reaches bonds r c.id :=
      Hq c (by simp)
    -- re-establish the invariants for the recursive call
    have Hfuel2 : 2 * unvis atoms (enqueueAll atoms (neighborIds bonds c.id) rest v).2
        + ((enqueueAll atoms (neighborIds bonds c.id) rest v).1).length ≤ fuel := by
      have := e7
      simp only [List.length_cons] at Hfuel
      omega
    have HqΔ : ∀ a ∈ Δ, a ∈ atoms ∧ Reaches bonds r a.id := by
      intro a ha
      refine ⟨(e3 a ha).1, ?_⟩
      have hadj : Adj bonds c.id a.id := mem_neighborIds_iff.mp (e3 a ha).2.1
      exact Relation.ReflTransGen.tail hcatoms.2 hadj
    have Hq2 : ∀ a ∈ (comp ++ [c]) ++ (enqueueAll atoms (neighborIds bonds c.id) rest v).1,
        a ∈ atoms ∧ Reaches bonds r a.id := by
      intro a ha
      rw [e1] at ha
      rcases List.mem_append.mp ha with h | h
      · rcases List.mem_append.mp h with h | h
        · exact Hq a (List.mem_append.mpr (Or.inl h))
        · have hac : a = c := by simpa using h
          subst hac
          exact hcatoms
      · rcases List.mem_append.mp h with h | h
        · exact Hq a (by simp [h])
        · exact HqΔ a h
    have hInV : ∀ x ∈ idsOf (comp ++ c :: rest), x ∈ v := by
      intro x hx
      exact (Hv x).mpr (Or.inr hx)
    have hΔfresh : ∀ x ∈ idsOf Δ, x ∉ idsOf (comp ++ c :: rest) := by
      intro x hx hmem
      obtain ⟨a, ha, rfl⟩ := List.mem_map.mp hx
      exact (e3 a ha).2.2 (hInV _ hmem)
    have Hv2 : ∀ x, x ∈ (enqueueAll atoms (neighborIds bonds c.id) rest v).2 ↔
        x ∈ V₀ ∨ x ∈ idsOf ((comp ++ [c]) ++ (enqueueAll atoms (neighborIds bonds c.id) rest v).1) := by
      intro x
      rw [e2 x, Hv x, e1]
      simp only [idsOf, List.map_append, List.map_cons, List.mem_append, List.mem_cons,
        List.map_nil, List.mem_singleton, List.not_mem_nil, or_false]
      tauto
    have Hnd2 : (idsOf ((comp ++ [c]) ++ (enqueueAll atoms (neighborIds bonds c.id) rest v).1)).Nodup := by
      rw [e1]
      have : (comp ++ [c]) ++ (rest ++ Δ) = (comp ++ c :: rest) ++ Δ := by simp
      rw [this, idsOf_append, List.nodup_append]
      refine ⟨Hnd, e4, ?_⟩
      intro x hx hxΔ
      exact hΔfresh x hxΔ hx
    have Hdisj2 : ∀ x ∈ V₀,
        x ∉ idsOf ((comp ++ [c]) ++ (enqueueAll atoms (neighborIds bonds c.id) rest v).1) := by
      intro x hx
      rw [e1]
      have : (comp ++ [c]) ++ (rest ++ Δ) = (comp ++ c :: rest) ++ Δ := by simp
      rw [this, idsOf_append]
      intro hmem
      rcases List.mem_append.mp hmem with h | h
      · exact Hdisj x hx h
      · obtain ⟨a, ha, rfl⟩ := List.mem_map.mp h
        exact (e3 a ha).2.2 ((Hv a.id).mpr (Or.inl hx))
    have Hcl2 : ∀ a ∈ comp ++ [c], ∀ y, Adj bonds a.id y →
        y ∈ (enqueueAll atoms (neighborIds bonds c.id) rest v).2 := by
      intro a ha y hadj
      rcases List.mem_append.mp ha with h | h
      · exact e6 y (Hcl a h y hadj)
      · have hac : a = c := by simpa using h
        subst hac
        refine e5 y (mem_neighborIds_iff.mpr hadj) ?_
        exact adj_target_exists Hex hadj
    have Hst2 : (st && fullB c) = true ↔ ∀ a ∈ comp ++ [c], isFull a := by
      rw [Bool.and_eq_true, Hst]
      constructor
      · rintro ⟨h1, h2⟩ a ha
        rcases List.mem_append.mp ha with h | h
        · exact h1 a h
        · have hac : a = c := by simpa using h
          subst hac
          simpa [fullB, isFull] using h2
      · intro h
        refine ⟨fun a ha => h a (List.mem_append.mpr (Or.inl ha)), ?_⟩
        have := h c (by simp)
        simpa [fullB, isFull] using this
    have rec := bfsAux_spec atoms bonds Hex V₀ r fuel
      (enqueueAll atoms (neighborIds bonds c.id) rest v).1
      (enqueueAll atoms (neighborIds bonds c.id) rest v).2
      (comp ++ [c]) (st && fullB c) Hfuel2 Hq2 Hv2 Hnd2 Hdisj2 Hcl2 Hst2
    rw [bfsAux]
    refine ⟨rec.1, rec.2.1, rec.2.2.1, rec.2.2.2.1, rec.2.2.2.2.1, rec.2.2.2.2.2.1, ?_⟩
    intro x hx
    exact rec.2.2.2.2.2.2 x (e6 x hx)

end BondArena

namespace BondArena

lemma closed_reach {bonds : List BondEntity} {v : List String}
    (hcl : ∀ x ∈ v, ∀ y, Adj bonds x y → y ∈ v) {x y : String}
    (hx : x ∈ v) (h : Reaches bonds x y) : y ∈ v := by
  induction h with
  | refl => exact hx
  | tail _ hadj ih => exact hcl _ ih _ hadj

lemma mem_of_id_mem {atoms l : List AtomEntity} (Huid : (idsOf atoms).Nodup)
    {a : AtomEntity} (ha : a ∈ atoms) (hsub : ∀ m ∈ l, m ∈ atoms)
    (hid : a.id ∈ idsOf l) : a ∈ l := by
  obtain ⟨m, hm, hmid⟩ := List.mem_map.mp hid
  have : m = a := eq_of_mem_ids_nodup Huid (hsub m hm) ha hmid
  exact this ▸ hm

/-- The outer scan loop of `checkMolecules`: every produced group is a
connected component with a correct saturation flag; groups are pairwise
disjoint, disjoint from the incoming visited set, and every pending atom
is covered. -/
lemma scanAll_spec (atoms : List AtomEntity) (bonds : List BondEntity)
    (Huid : (idsOf atoms).Nodup)
    (Hex : ∀ bd ∈ bonds,
      (∃ a ∈ atoms, a.id = bd.atom1Id) ∧ (∃ a ∈ atoms, a.id = bd.atom2Id)) :
    ∀ (pending : List AtomEntity) (v : List String),
      (∀ a ∈ pending, a ∈ atoms) →
      (∀ x ∈ v, ∀ y, Adj bonds x y → y ∈ v) →
      (∀ gp ∈ (scanAll atoms bonds pending v).1,
          (∀ a ∈ gp.1, a ∈ atoms) ∧ (idsOf gp.1).Nodup ∧ gp.1 ≠ [] ∧
          (∀ a ∈ gp.1, ∀ b ∈ gp.1, Reaches bonds a.id b.id) ∧
          (∀ a ∈ gp.1, ∀ b ∈ atoms, Reaches bonds a.id b.id → b ∈ gp.1) ∧
          (gp.2 = true ↔ ∀ a ∈ gp.1, isFull a)) ∧
      (∀ x, x ∈ (scanAll atoms bonds pending v).2 ↔
          x ∈ v ∨ ∃ gp ∈ (scanAll atoms bonds pending v).1, x ∈ idsOf gp.1) ∧
      (∀ a ∈ pending, a.id ∈ (scanAll atoms bonds pending v).2) ∧
      (∀ x ∈ (scanAll atoms bonds pending v).2, ∀ y, Adj bonds x y →
          y ∈ (scanAll atoms bonds pending v).2) ∧
      (∀ gp ∈ (scanAll atoms bonds pending v).1, ∀ x ∈ idsOf gp.1, x ∉ v) ∧
      List.Pairwise (fun gp gq => ∀ x ∈ idsOf gp.1, x ∉ idsOf gq.1)
        (scanAll atoms bonds pending v).1 ∧
      (∀ x ∈ v, x ∈ (scanAll atoms bonds pending v).2)
  | [], v => by
    intro _ Hvcl
    refine ⟨by simp [scanAll], ?_, by simp, ?_, by simp [scanAll], ?_, ?_⟩
    · intro x
      simp [scanAll]
    · intro x hx y hadj
      exact Hvcl x hx y hadj
    · simp [scanAll]
    · intro x hx
      exact hx
  | a :: rest, v => by
    intro Hpend Hvcl
    by_cases hvis : v.contains a.id
    · rw [show scanAll atoms bonds (a :: rest) v = scanAll atoms bonds rest v from by
        rw [scanAll, if_pos hvis]]
      obtain ⟨g1, g2, g3, g4, g5, g6, g7⟩ :=
        scanAll_spec atoms bonds Huid Hex rest v
          (fun b hb => Hpend b (List.mem_cons_of_mem _ hb)) Hvcl
      refine ⟨g1, g2, ?_, g4, g5, g6, g7⟩
      intro b hb
      rcases List.mem_cons.mp hb with rfl | hb'
      · exact g7 b.id ((contains_iff _ _).mp hvis)
      · exact g3 b hb'
    · have hnv : a.id ∉ v := fun hc => hvis ((contains_iff _ _).mpr hc)
      have haa : a ∈ atoms := Hpend a (List.mem_cons_self a rest)
      -- the BFS from `a`
      obtain ⟨b1, b2, b3, b4, b5, b6, b7⟩ :=
        bfsAux_spec atoms bonds Hex v a.id (2 * atoms.length + 1) [a] (a.id :: v) [] true
          (by
            have h1 : unvis atoms (a.id :: v) ≤ atoms.length := List.countP_le_length _
            simp only [List.length_cons, List.length_nil]
            omega)
          (by
            intro m hm
            have : m = a := by simpa using hm
            subst this
            exact ⟨haa, Relation.ReflTransGen.refl⟩)
          (by
            intro x
            simp only [List.mem_cons, List.nil_append, idsOf, List.map_cons,
              List.map_nil, List.mem_singleton]
            tauto)
          (by simp [idsOf])
          (by
            intro x hx
            simp only [List.nil_append, idsOf, List.map_cons, List.map_nil,
              List.mem_singleton]
            intro hxe
            exact hnv (hxe ▸ hx))
          (by intro m hm; cases hm)
          (by simp)
      set R := bfsAux atoms bonds (2 * atoms.length + 1) [a] (a.id :: v) [] true with hR
      -- the root atom belongs to the component
      have haidv2 : a.id ∈ R.2.2 := b7 a.id (List.mem_cons_self _ _)
      have haid : a.id ∈ idsOf R.1 := by
        rcases (b2 a.id).mp haidv2 with h | h
        · exact absurd h hnv
        · exact h
      have hacomp : a ∈ R.1 := mem_of_id_mem Huid haa (fun m hm => (b1 m hm).1) haid
      -- ids reachable from the root are component ids
      have hreachid : ∀ y, Reaches bonds a.id y → y ∈ idsOf R.1 := by
        intro y hy
        induction hy with
        | refl => exact haid
        | tail hz hadj ih =>
          rename_i z y2
          obtain ⟨m, hm, hmid⟩ := List.mem_map.mp ih
          have hy2 : y2 ∈ R.2.2 := b5 m hm y2 (hmid ▸ hadj)
          rcases (b2 y2).mp hy2 with h | h
          · exfalso
            have : Reaches bonds a.id y2 := Relation.ReflTransGen.tail hz hadj
            have : a.id ∈ v := closed_reach Hvcl h (reaches_symm this)
            exact hnv this
          · exact h
      have hclosure : ∀ m ∈ R.1, ∀ b ∈ atoms, Reaches bonds m.id b.id → b ∈ R.1 := by
        intro m hm b hb hr
        have h1 : Reaches bonds a.id b.id :=
          Relation.ReflTransGen.trans (b1 m hm).2 hr
        exact mem_of_id_mem Huid hb (fun m2 hm2 => (b1 m2 hm2).1) (hreachid _ h1)
      have hconn : ∀ m ∈ R.1, ∀ m2 ∈ R.1, Reaches bonds m.id m2.id := by
        intro m hm m2 hm2
        exact Relation.ReflTransGen.trans (reaches_symm (b1 m hm).2) (b1 m2 hm2).2
      have hne : R.1 ≠ [] := by
        intro hc
        rw [hc] at haid
        simp [idsOf] at haid
      have hv2cl : ∀ x ∈ R.2.2, ∀ y, Adj bonds x y → y ∈ R.2.2 := by
        intro x hx y hadj
        rcases (b2 x).mp hx with h | h
        · exact b7 y (List.mem_cons_of_mem _ (Hvcl x h y hadj))
        · obtain ⟨m, hm, hmid⟩ := List.mem_map.mp h
          exact b5 m hm y (hmid ▸ hadj)
      have hgdisj : ∀ x ∈ idsOf R.1, x ∉ v := by
        intro x hx hxv
        exact b4 x hxv hx
      -- recurse on the remaining pending atoms
      obtain ⟨g1, g2, g3, g4, g5, g6, g7⟩ :=
        scanAll_spec atoms bonds Huid Hex rest R.2.2
          (fun b hb => Hpend b (List.mem_cons_of_mem _ hb)) hv2cl
      rw [show scanAll atoms bonds (a :: rest) v
            = ((R.1, R.2.1) :: (scanAll atoms bonds rest R.2.2).1,
               (scanAll atoms bonds rest R.2.2).2) from by
        rw [scanAll, if_neg hvis]]
      refine ⟨?_, ?_, ?_, g4, ?_, ?_, ?_⟩
      · intro gp hgp
        rcases List.mem_cons.mp hgp with rfl | hgp'
        · exact ⟨fun m hm => (b1 m hm).1, b3, hne, hconn, hclosure, b6⟩
        · exact g1 gp hgp'
      · intro x
        rw [g2 x, b2 x]
        constructor
        · rintro ((h | h) | ⟨gp, hgp, hx⟩)
          · exact Or.inl h
          · exact Or.inr ⟨(R.1, R.2.1), List.mem_cons_self _ _, h⟩
          · exact Or.inr ⟨gp, List.mem_cons_of_mem _ hgp, hx⟩
        · rintro (h | ⟨gp, hgp, hx⟩)
          · exact Or.inl (Or.inl h)
          · rcases List.mem_cons.mp hgp with rfl | hgp'
            · exact Or.inl (Or.inr hx)
            · exact Or.inr ⟨gp, hgp', hx⟩
      · intro b hb
        rcases List.mem_cons.mp hb with rfl | hb'
        · exact g7 b.id haidv2
        · exact g3 b hb'
      · intro gp hgp x hx
        rcases List.mem_cons.mp hgp with rfl | hgp'
        · exact hgdisj x hx
        · intro hxv
          exact g5 gp hgp' x hx (b7 x (List.mem_cons_of_mem _ hxv))
      · refine List.Pairwise.cons ?_ g6
        intro gq hgq x hx hxq
        exact g5 gq hgq x hxq ((b2 x).mpr (Or.inr hx))
      · intro x hx
        exact g7 x (b7 x (List.mem_cons_of_mem _ hx))

end BondArena

namespace BondArena

lemma lt_length_of_two_mem {g : List AtomEntity} {a b : AtomEntity}
    (ha : a ∈ g) (hb : b ∈ g) (hne : a.id ≠ b.id) : 1 < g.length := by
  cases g with
  | nil => cases ha
  | cons x xs =>
    cases xs with
    | nil =>
      have h1 : a = x := by simpa using ha
      have h2 : b = x := by simpa using hb
      exact absurd (h1 ▸ h2 ▸ rfl) hne
    | cons y ys => simp

lemma exists_partner {g : List AtomEntity} (hlen : 1 < g.length)
    (hnd : (idsOf g).Nodup) {a : AtomEntity} (ha : a ∈ g) :
    ∃ b ∈ g, b.id ≠ a.id := by
  cases g with
  | nil => cases ha
  | cons x xs =>
    cases xs with
    | nil => simp at hlen
    | cons y ys =>
      simp only [idsOf, List.map_cons, List.nodup_cons, List.mem_cons,
        List.mem_map] at hnd
      rcases List.mem_cons.mp ha with rfl | ha'
      · refine ⟨y, by simp, fun hc => ?_⟩
        exact hnd.1 (Or.inl hc.symm)
      · refine ⟨x, by simp, fun hc => ?_⟩
        apply hnd.1
        rcases List.mem_cons.mp ha' with rfl | ha''
        · exact Or.inl hc
        · exact Or.inr ⟨a, ha'', hc.symm⟩

lemma mem_reportedGroups {atoms : List AtomEntity} {bonds : List BondEntity}
    {g : List AtomEntity} :
    g ∈ reportedGroups atoms bonds ↔
      ∃ fl : Bool, (g, fl) ∈ (scanAll atoms bonds atoms []).1 ∧ fl = true ∧
        1 < g.length := by
  simp only [reportedGroups, List.mem_map, List.mem_filter]
  constructor
  · rintro ⟨⟨g1, fl⟩, ⟨hmem, hcond⟩, rfl⟩
    simp only [Bool.and_eq_true, decide_eq_true_eq] at hcond
    exact ⟨fl, hmem, hcond.1, hcond.2⟩
  · rintro ⟨fl, hmem, rfl, hlen⟩
    exact ⟨(g, true), ⟨hmem, by simp [hlen]⟩, rfl⟩

lemma mem_removedIds {atoms : List AtomEntity} {bonds : List BondEntity}
    {x : String} :
    x ∈ removedIds atoms bonds ↔ ∃ g ∈ reportedGroups atoms bonds, x ∈ idsOf g := by
  simp [removedIds, List.mem_flatMap]

/-- Soundness: every reported group is a stable component. -/
lemma reported_isStable {atoms : List AtomEntity} {bonds : List BondEntity}
    (Huid : (idsOf atoms).Nodup)
    (Hex : ∀ bd ∈ bonds,
      (∃ a ∈ atoms, a.id = bd.atom1Id) ∧ (∃ a ∈ atoms, a.id = bd.atom2Id)) :
    ∀ g ∈ reportedGroups atoms bonds, IsStableComponent atoms bonds g := by
  intro g hg
  obtain ⟨fl, hmem, rfl, hlen⟩ := mem_reportedGroups.mp hg
  obtain ⟨g1, _, _, _, _, _, _⟩ :=
    scanAll_spec atoms bonds Huid Hex atoms [] (fun a ha => ha)
      (fun x hx => absurd hx (List.not_mem_nil x))
  obtain ⟨p1, p2, _, p4, p5, p6⟩ := g1 (g, true) hmem
  exact ⟨hlen, p2, p1, p6.mp rfl, p4, p5⟩

/-- Every member of a reported group sits in a stable neighborhood. -/
lemma reported_stableAt {atoms : List AtomEntity} {bonds : List BondEntity}
    (Huid : (idsOf atoms).Nodup)
    (Hex : ∀ bd ∈ bonds,
      (∃ a ∈ atoms, a.id = bd.atom1Id) ∧ (∃ a ∈ atoms, a.id = bd.atom2Id)) :
    ∀ g ∈ reportedGroups atoms bonds, ∀ a ∈ g, StableAt atoms bonds a := by
  intro g hg a ha
  obtain ⟨hlen, hnd, hsub, hfull, hconn, hcl⟩ := reported_isStable Huid Hex g hg
  obtain ⟨b, hb, hbne⟩ := exists_partner hlen hnd ha
  exact ⟨⟨b, hsub b hb, hbne, hconn a ha b hb⟩,
    fun b2 hb2 hr => hfull b2 (hcl a ha b2 hb2 hr)⟩

/-- Completeness: an atom in a stable neighborhood belongs to some
reported group. -/
lemma stableAt_mem_reported {atoms : List AtomEntity} {bonds : List BondEntity}
    (Huid : (idsOf atoms).Nodup)
    (Hex : ∀ bd ∈ bonds,
      (∃ a ∈ atoms, a.id = bd.atom1Id) ∧ (∃ a ∈ atoms, a.id = bd.atom2Id)) :
    ∀ a ∈ atoms, StableAt atoms bonds a →
      ∃ g ∈ reportedGroups atoms bonds, a ∈ g := by
  intro a ha hst
  obtain ⟨g1, g2, g3, _, _, _, _⟩ :=
    scanAll_spec atoms bonds Huid Hex atoms [] (fun b hb => hb)
      (fun x hx => absurd hx (List.not_mem_nil x))
  have hcov := g3 a ha
  rcases (g2 a.id).mp hcov with h | ⟨gp, hgp, hx⟩
  · exact absurd h (List.not_mem_nil _)
  obtain ⟨p1, p2, _, p4, p5, p6⟩ := g1 gp hgp
  have hag : a ∈ gp.1 := mem_of_id_mem Huid ha p1 hx
  have hfl : gp.2 = true := by
    apply p6.mpr
    intro m hm
    exact hst.2 m (p1 m hm) (p4 a hag m hm)
  obtain ⟨b, hb, hbne, hbr⟩ := hst.1
  have hbg : b ∈ gp.1 := p5 a hag b hb hbr
  have hlen : 1 < gp.1.length := lt_length_of_two_mem hbg hag hbne
  exact ⟨gp.1, mem_reportedGroups.mpr ⟨gp.2, by cases gp; simpa [hfl], hfl, hlen⟩, hag⟩

/-- If the store has no stable component, the detector reports nothing. -/
lemma reported_nil_of_noStable {atoms : List AtomEntity} {bonds : List BondEntity}
    (Huid : (idsOf atoms).Nodup)
    (Hex : ∀ bd ∈ bonds,
      (∃ a ∈ atoms, a.id = bd.atom1Id) ∧ (∃ a ∈ atoms, a.id = bd.atom2Id))
    (hns : ∀ a ∈ atoms, ¬ StableAt atoms bonds a) :
    reportedGroups atoms bonds = [] := by
  cases hrep : reportedGroups atoms bonds with
  | nil => rfl
  | cons g gs =>
    exfalso
    have hg : g ∈ reportedGroups atoms bonds := hrep ▸ List.mem_cons_self g gs
    obtain ⟨hlen, _, hsub, _, _, _⟩ := reported_isStable Huid Hex g hg
    cases g with
    | nil => simp at hlen
    | cons a g2 =>
      have ha : a ∈ atoms := hsub a (List.mem_cons_self a g2)
      exact hns a ha
        (reported_stableAt Huid Hex _ hg a (List.mem_cons_self a g2))

/-- On a quiescent store `checkMolecules` changes nothing and emits
nothing. -/
lemma checkMolecules_quiescent {atoms : List AtomEntity} {bonds : List BondEntity}
    {dr : Option String}
    (Huid : (idsOf atoms).Nodup)
    (Hex : ∀ bd ∈ bonds,
      (∃ a ∈ atoms, a.id = bd.atom1Id) ∧ (∃ a ∈ atoms, a.id = bd.atom2Id))
    (hns : ∀ a ∈ atoms, ¬ StableAt atoms bonds a) :
    checkMolecules atoms bonds dr = ⟨atoms, bonds, dr, []⟩ := by
  have hrep := reported_nil_of_noStable Huid Hex hns
  have hrem : removedIds atoms bonds = [] := by
    simp [removedIds, hrep]
  have h1 : atoms.filter (fun a => !([] : List String).contains a.id) = atoms :=
    List.filter_eq_self.mpr (fun a _ => rfl)
  have h2 : bonds.filter (fun b =>
      !([] : List String).contains b.atom1Id && !([] : List String).contains b.atom2Id)
      = bonds :=
    List.filter_eq_self.mpr (fun b _ => rfl)
  simp only [checkMolecules, hrem, hrep, h1, h2]
  cases dr <;> rfl

end BondArena

namespace BondArena

lemma countP_filter_of_imp {p q : α → Bool} :
    ∀ {l : List α}, (∀ x ∈ l, p x = true → q x = true) →
      (l.filter q).countP p = l.countP p
  | [], _ => rfl
  | x :: xs, h => by
    have ih : ((xs.filter q).countP p = xs.countP p) :=
      countP_filter_of_imp (fun y hy => h y (List.mem_cons_of_mem _ hy))
    by_cases hx : p x
    · have hqx : q x = true := h x (List.mem_cons_self x xs) hx
      simp [List.filter_cons, hqx, List.countP_cons, hx, ih]
    · by_cases hqx : q x
      · simp [List.filter_cons, hqx, List.countP_cons, hx, ih]
      · simp [List.filter_cons, hqx, List.countP_cons, hx, ih]

lemma removedIds_closed {atoms : List AtomEntity} {bonds : List BondEntity}
    (Huid : (idsOf atoms).Nodup)
    (Hex : ∀ bd ∈ bonds,
      (∃ a ∈ atoms, a.id = bd.atom1Id) ∧ (∃ a ∈ atoms, a.id = bd.atom2Id)) :
    ∀ x ∈ removedIds atoms bonds, ∀ y, Adj bonds x y →
      y ∈ removedIds atoms bonds := by
  intro x hx y hadj
  obtain ⟨g, hg, hxg⟩ := mem_removedIds.mp hx
  obtain ⟨_, _, hsub, _, _, hcl⟩ := reported_isStable Huid Hex g hg
  obtain ⟨ax, hax, haxid⟩ := List.mem_map.mp hxg
  obtain ⟨ay, hay, hayid⟩ := adj_target_exists Hex hadj
  have hadj2 : Adj bonds ax.id ay.id := by
    rw [haxid, hayid]
    exact hadj
  have hayg : ay ∈ g := hcl ax hax ay hay (Relation.ReflTransGen.single hadj2)
  refine mem_removedIds.mpr ⟨g, hg, ?_⟩
  rw [← hayid]
  exact List.mem_map_of_mem _ hayg

/-- `checkMolecules` preserves the store invariant and leaves a store with
no stable component. -/
lemma checkMolecules_inv (atoms : List AtomEntity) (bonds : List BondEntity)
    (dr : Option String) (hs : StoreInv atoms bonds) :
    StoreInv (checkMolecules atoms bonds dr).atoms (checkMolecules atoms bonds dr).bonds ∧
    (∀ a ∈ (checkMolecules atoms bonds dr).atoms,
      ¬ StableAt (checkMolecules atoms bonds dr).atoms
          (checkMolecules atoms bonds dr).bonds a) := by
  have Hex : ∀ bd ∈ bonds,
      (∃ a ∈ atoms, a.id = bd.atom1Id) ∧ (∃ a ∈ atoms, a.id = bd.atom2Id) :=
    fun bd hbd => ⟨(hs.bondsWf bd hbd).2.1, (hs.bondsWf bd hbd).2.2⟩
  have hkept : ∀ a : AtomEntity, a ∈ (checkMolecules atoms bonds dr).atoms ↔
      a ∈ atoms ∧ a.id ∉ removedIds atoms bonds := by
    intro a
    simp only [checkMolecules, List.mem_filter, Bool.not_eq_true']
    rw [contains_false_iff]
  have hbkept : ∀ bd : BondEntity, bd ∈ (checkMolecules atoms bonds dr).bonds ↔
      bd ∈ bonds ∧ bd.atom1Id ∉ removedIds atoms bonds ∧
        bd.atom2Id ∉ removedIds atoms bonds := by
    intro bd
    simp only [checkMolecules, List.mem_filter, Bool.and_eq_true, Bool.not_eq_true']
    rw [contains_false_iff, contains_false_iff]
  have hremcl := removedIds_closed hs.uidAtoms Hex
  -- a bond incident to a kept atom is kept
  have hinc_kept : ∀ a ∈ atoms, a.id ∉ removedIds atoms bonds →
      ∀ bd ∈ bonds, incident bd a.id = true →
        bd.atom1Id ∉ removedIds atoms bonds ∧ bd.atom2Id ∉ removedIds atoms bonds := by
    intro a _ hanr bd hbd hinc
    simp only [incident, Bool.or_eq_true, beq_iff_eq] at hinc
    rcases hinc with h1 | h2
    · refine ⟨h1 ▸ hanr, fun hc => hanr ?_⟩
      have hadj : Adj bonds bd.atom2Id a.id := ⟨bd, hbd, Or.inr ⟨h1, rfl⟩⟩
      exact hremcl _ hc _ hadj
    · refine ⟨fun hc => hanr ?_, h2 ▸ hanr⟩
      have hadj : Adj bonds bd.atom1Id a.id := ⟨bd, hbd, Or.inl ⟨rfl, h2⟩⟩
      exact hremcl _ hc _ hadj
  have hsub2 : ∀ bd ∈ (checkMolecules atoms bonds dr).bonds, bd ∈ bonds :=
    fun bd hbd => ((hbkept bd).mp hbd).1
  refine ⟨⟨?_, ?_, ?_, ?_, ?_, ?_⟩, ?_⟩
  · -- atom ids still distinct
    have : (checkMolecules atoms bonds dr).atoms.Sublist atoms := by
      simp only [checkMolecules]
      exact List.filter_sublist atoms
    exact (hs.uidAtoms).sublist (this.map _)
  · have : (checkMolecules atoms bonds dr).bonds.Sublist bonds := by
      simp only [checkMolecules]
      exact List.filter_sublist bonds
    exact (hs.uidBonds).sublist (this.map _)
  · intro bd hbd
    obtain ⟨hbdmem, h1, h2⟩ := (hbkept bd).mp hbd
    obtain ⟨hne, ⟨a1, ha1, ha1id⟩, ⟨a2, ha2, ha2id⟩⟩ := hs.bondsWf bd hbdmem
    exact ⟨hne, ⟨a1, (hkept a1).mpr ⟨ha1, ha1id ▸ h1⟩, ha1id⟩,
      ⟨a2, (hkept a2).mpr ⟨ha2, ha2id ▸ h2⟩, ha2id⟩⟩
  · intro a ha
    obtain ⟨hamem, hanr⟩ := (hkept a).mp ha
    have hcount := hs.countOk a hamem
    have heq : ((checkMolecules atoms bonds dr).bonds.countP
        (fun b => incident b a.id)) = bonds.countP (fun b => incident b a.id) := by
      have : (checkMolecules atoms bonds dr).bonds
          = bonds.filter (fun b => !(removedIds atoms bonds).contains b.atom1Id
              && !(removedIds atoms bonds).contains b.atom2Id) := rfl
      rw [this]
      apply countP_filter_of_imp
      intro bd hbd hinc
      obtain ⟨k1, k2⟩ := hinc_kept a hamem hanr bd hbd hinc
      simp only [Bool.and_eq_true, Bool.not_eq_true']
      rw [contains_false_iff, contains_false_iff]
      exact ⟨k1, k2⟩
    rw [heq]
    exact hcount
  · intro a ha
    exact hs.capOk a ((hkept a).mp ha).1
  · intro a ha
    exact hs.bondedEmpty a ((hkept a).mp ha).1
  · -- the resulting store holds no stable component
    intro a ha hstable
    obtain ⟨hamem, hanr⟩ := (hkept a).mp ha
    -- reach in the old graph from a kept atom stays kept and survives
    have K1 : ∀ y : String, Reaches bonds a.id y →
        y ∉ removedIds atoms bonds ∧ Reaches (checkMolecules atoms bonds dr).bonds a.id y := by
      intro y hy
      induction hy with
      | refl => exact ⟨hanr, Relation.ReflTransGen.refl⟩
      | tail hz hadj ih =>
        rename_i z y2
        have hy2nr : y2 ∉ removedIds atoms bonds := by
          intro hc
          exact ih.1 (hremcl _ hc _ (adj_symm hadj))
        obtain ⟨bd, hbd, hc⟩ := hadj
        have hbdkept : bd ∈ (checkMolecules atoms bonds dr).bonds := by
          apply (hbkept bd).mpr
          refine ⟨hbd, ?_, ?_⟩
          · rcases hc with ⟨e1, e2⟩ | ⟨e1, e2⟩
            · rw [e1]; exact ih.1
            · rw [e1]; exact hy2nr
          · rcases hc with ⟨e1, e2⟩ | ⟨e1, e2⟩
            · rw [e2]; exact hy2nr
            · rw [e2]; exact ih.1
        exact ⟨hy2nr, Relation.ReflTransGen.tail ih.2 ⟨bd, hbdkept, hc⟩⟩
    -- transfer stability back to the pre-scan store
    have hstable0 : StableAt atoms bonds a := by
      obtain ⟨⟨b, hb, hbne, hbr⟩, hall⟩ := hstable
      refine ⟨⟨b, ((hkept b).mp hb).1, hbne, reaches_mono hsub2 hbr⟩, ?_⟩
      intro b2 hb2 hr2
      obtain ⟨hb2nr, hr2'⟩ := K1 b2.id hr2
      exact hall b2 ((hkept b2).mpr ⟨hb2, hb2nr⟩) hr2'
    obtain ⟨g, hg, hag⟩ := stableAt_mem_reported hs.uidAtoms Hex a hamem hstable0
    exact hanr (mem_removedIds.mpr ⟨g, hg, List.mem_map_of_mem _ hag⟩)

end BondArena

namespace BondArena

lemma coreOf_eq_iff {a b : AtomEntity} : coreOf a = coreOf b ↔
    a.id = b.id ∧ a.type = b.type ∧ a.currentBonds = b.currentBonds ∧
      a.bondedAtomIds = b.bondedAtomIds := by
  simp [coreOf]

lemma idsOf_eq_of_mapcore_eq {l l2 : List AtomEntity}
    (h : l2.map coreOf = l.map coreOf) : idsOf l2 = idsOf l := by
  have h1 : idsOf l2 = (l2.map coreOf).map (fun c => c.1) := by
    rw [List.map_map]
    rfl
  have h2 : idsOf l = (l.map coreOf).map (fun c => c.1) := by
    rw [List.map_map]
    rfl
  rw [h1, h2, h]

lemma core_mem_of_mapcore_eq {l l2 : List AtomEntity}
    (h : l2.map coreOf = l.map coreOf) :
    ∀ a2 ∈ l2, ∃ a ∈ l, coreOf a = coreOf a2 := by
  intro a2 ha2
  have hmem : coreOf a2 ∈ l2.map coreOf := List.mem_map_of_mem _ ha2
  rw [h] at hmem
  obtain ⟨a, ha, hae⟩ := List.mem_map.mp hmem
  exact ⟨a, ha, hae⟩

lemma isFull_of_core {a b : AtomEntity} (h : coreOf a = coreOf b) :
    isFull a ↔ isFull b := by
  obtain ⟨_, h2, h3, _⟩ := coreOf_eq_iff.mp h
  rw [isFull, isFull, h2, h3]

lemma stableAt_of_mapcore_eq {l l2 : List AtomEntity} {bonds : List BondEntity}
    (h : l2.map coreOf = l.map coreOf) {a : AtomEntity} {a2 : AtomEntity}
    (hc : coreOf a = coreOf a2) (hst : StableAt l2 bonds a2) : StableAt l bonds a := by
  have hid : a.id = a2.id := (coreOf_eq_iff.mp hc).1
  obtain ⟨⟨b2, hb2, hbne, hbr⟩, hall⟩ := hst
  constructor
  · obtain ⟨b, hb, hbc⟩ := core_mem_of_mapcore_eq h b2 hb2
    have hbid : b.id = b2.id := (coreOf_eq_iff.mp hbc).1
    exact ⟨b, hb, by rw [hbid, hid]; exact hbne, by rw [hbid, hid]; exact hbr⟩
  · intro b hb hr
    obtain ⟨b2', hb2', hbc⟩ := core_mem_of_mapcore_eq h.symm b hb
    have hbid : b2'.id = b.id := (coreOf_eq_iff.mp hbc).1
    have : isFull b2' := hall b2' hb2' (by rw [hbid, ← hid]; exact hr)
    exact (isFull_of_core hbc).mp this

/-- A core-preserving change of the atom list preserves the store
invariant. -/
lemma storeInv_of_mapcore_eq {l l2 : List AtomEntity} {bonds : List BondEntity}
    (h : l2.map coreOf = l.map coreOf) (hs : StoreInv l bonds) : StoreInv l2 bonds := by
  have hids := idsOf_eq_of_mapcore_eq h
  refine ⟨hids ▸ hs.uidAtoms, hs.uidBonds, ?_, ?_, ?_, ?_⟩
  · intro bd hbd
    obtain ⟨hne, ⟨a1, ha1, he1⟩, ⟨a2, ha2, he2⟩⟩ := hs.bondsWf bd hbd
    obtain ⟨b1, hb1, hc1⟩ := core_mem_of_mapcore_eq h.symm a1 ha1
    obtain ⟨b2, hb2, hc2⟩ := core_mem_of_mapcore_eq h.symm a2 ha2
    exact ⟨hne, ⟨b1, hb1, by rw [(coreOf_eq_iff.mp hc1).1]; exact he1⟩,
      ⟨b2, hb2, by rw [(coreOf_eq_iff.mp hc2).1]; exact he2⟩⟩
  · intro a2 ha2
    obtain ⟨a, ha, hc⟩ := core_mem_of_mapcore_eq h a2 ha2
    obtain ⟨h1, _, h3, _⟩ := coreOf_eq_iff.mp hc
    rw [← h3, ← h1]
    exact hs.countOk a ha
  · intro a2 ha2
    obtain ⟨a, ha, hc⟩ := core_mem_of_mapcore_eq h a2 ha2
    obtain ⟨_, h2, h3, _⟩ := coreOf_eq_iff.mp hc
    rw [← h3, ← h2]
    exact hs.capOk a ha
  · intro a2 ha2
    obtain ⟨a, ha, hc⟩ := core_mem_of_mapcore_eq h a2 ha2
    rw [← (coreOf_eq_iff.mp hc).2.2.2]
    exact hs.bondedEmpty a ha

lemma noStable_of_mapcore_eq {l l2 : List AtomEntity} {bonds : List BondEntity}
    (h : l2.map coreOf = l.map coreOf)
    (hns : ∀ a ∈ l, ¬ StableAt l bonds a) :
    ∀ a2 ∈ l2, ¬ StableAt l2 bonds a2 := by
  intro a2 ha2 hst
  obtain ⟨a, ha, hc⟩ := core_mem_of_mapcore_eq h a2 ha2
  exact hns a ha (stableAt_of_mapcore_eq h hc hst)

lemma forall2_physmatch_mapcore {l l2 : List AtomEntity}
    (h : List.Forall₂ PhysMatch l l2) : l2.map coreOf = l.map coreOf := by
  induction h with
  | nil => rfl
  | cons hab _ ih =>
    simp only [List.map_cons, ih, List.cons.injEq, and_true]
    exact hab

/-- Under unique ids, mutating the first atom with a given id is mutating
the (unique) atom with that id. -/
lemma adjustFirst_eq_map_of_nodup {l : List AtomEntity} (hnd : (idsOf l).Nodup)
    (e : String) (f : AtomEntity → AtomEntity) :
    adjustFirst (fun a => a.id == e) f l = l.map (fun a => if a.id = e then f a else a) := by
  induction l with
  | nil => rfl
  | cons x xs ih =>
    simp only [idsOf, List.map_cons, List.nodup_cons] at hnd
    by_cases hx : x.id = e
    · have hxs : xs.map (fun a => if a.id = e then f a else a) = xs := by
        apply List.map_congr_left ?_ |>.trans (List.map_id xs)
        intro a ha
        have : a.id ≠ e := by
          intro hc
          exact hnd.1 (hx ▸ hc ▸ List.mem_map_of_mem (fun t => t.id) ha)
        simp [this]
      have hbx : (x.id == e) = true := by simp [hx]
      simp only [adjustFirst, hbx, if_true, List.map_cons, hxs]
      rw [if_pos hx]
    · have hbx : (x.id == e) = false := by simp [hx]
      simp only [adjustFirst, hbx, Bool.false_eq_true, if_false, List.map_cons]
      rw [if_neg hx, ih hnd.2]

lemma idsOf_map_id_preserve {l : List AtomEntity} {h : AtomEntity → AtomEntity}
    (hp : ∀ a, (h a).id = a.id) : idsOf (l.map h) = idsOf l := by
  induction l with
  | nil => rfl
  | cons x xs ih =>
    simp only [idsOf, List.map_cons, List.map_map] at ih ⊢
    rw [hp x]
    refine congrArg _ ?_
    simpa [idsOf, List.map_map] using ih

end BondArena

namespace BondArena

lemma valency_pos (t : AtomType) : 1 ≤ (ATOM_DEFS t).valency := by
  cases t <;> decide

lemma decB_id (a : AtomEntity) : (decB a).id = a.id := rfl

lemma incB_id (a : AtomEntity) : (incB a).id = a.id := rfl

/-- Removing the bond found by `find?` and decrementing its two endpoints
preserves the store invariant and cannot create a stable component. -/
lemma removeBond_inv {atoms : List AtomEntity} {bonds : List BondEntity}
    (hs : StoreInv atoms bonds) (hns : ∀ a ∈ atoms, ¬ StableAt atoms bonds a)
    {bid : String} {bond : BondEntity}
    (hfind : bonds.find? (fun b => b.id == bid) = some bond) :
    StoreInv
      (adjustFirst (fun a => a.id == bond.atom2Id) decB
        (adjustFirst (fun a => a.id == bond.atom1Id) decB atoms))
      (bonds.eraseP (fun b => b.id == bid)) ∧
    (∀ a ∈ adjustFirst (fun a => a.id == bond.atom2Id) decB
        (adjustFirst (fun a => a.id == bond.atom1Id) decB atoms),
      ¬ StableAt
          (adjustFirst (fun a => a.id == bond.atom2Id) decB
            (adjustFirst (fun a => a.id == bond.atom1Id) decB atoms))
          (bonds.eraseP (fun b => b.id == bid)) a) := by
  obtain ⟨L1, L2, hsplit, hL1, hbid⟩ := find?_split hfind
  have hbmem : bond ∈ bonds := List.mem_of_find?_eq_some hfind
  obtain ⟨hne, ⟨a1, ha1, ha1id⟩, ⟨a2, ha2, ha2id⟩⟩ := hs.bondsWf bond hbmem
  have herase : bonds.eraseP (fun b => b.id == bid) = L1 ++ L2 := by
    rw [hsplit]
    exact eraseP_append_cons L1 bond L2 hL1 hbid
  -- the two adjustments are one pointwise map
  have hmap1 := adjustFirst_eq_map_of_nodup hs.uidAtoms bond.atom1Id decB
  have hids1 : idsOf (atoms.map (fun a => if a.id = bond.atom1Id then decB a else a))
      = idsOf atoms :=
    idsOf_map_id_preserve (fun a => by by_cases h : a.id = bond.atom1Id <;> simp [h, decB])
  have hnd2 : (idsOf (atoms.map (fun a => if a.id = bond.atom1Id then decB a else a))).Nodup := by
    rw [hids1]
    exact hs.uidAtoms
  have hmap2 := adjustFirst_eq_map_of_nodup hnd2 bond.atom2Id decB
  have hatoms2 : adjustFirst (fun a => a.id == bond.atom2Id) decB
      (adjustFirst (fun a => a.id == bond.atom1Id) decB atoms)
      = atoms.map (fun a =>
          if a.id = bond.atom1Id then decB a
          else if a.id = bond.atom2Id then decB a else a) := by
    rw [hmap1, hmap2, List.map_map]
    apply List.map_congr_left
    intro a _
    by_cases h1 : a.id = bond.atom1Id
    · have : (decB a).id ≠ bond.atom2Id := by
        rw [decB_id, h1]
        exact hne
      simp [Function.comp, h1, this]
    · by_cases h2 : a.id = bond.atom2Id <;> simp [Function.comp, h1, h2, Ne.symm hne]
  set h : AtomEntity → AtomEntity := fun a =>
    if a.id = bond.atom1Id then decB a
    else if a.id = bond.atom2Id then decB a else a with hh
  have hid : ∀ a, (h a).id = a.id := by
    intro a
    by_cases h1 : a.id = bond.atom1Id
    · simp [hh, h1, decB]
    · by_cases h2 : a.id = bond.atom2Id <;> simp [hh, h1, h2, decB]
  have hidsOf : idsOf (atoms.map h) = idsOf atoms := idsOf_map_id_preserve hid
  -- incidence counts in the split bond list
  have hcount : ∀ x : String, bonds.countP (fun b => incident b x)
      = (L1 ++ L2).countP (fun b => incident b x)
        + (if incident bond x then 1 else 0) := by
    intro x
    rw [hsplit, List.countP_append, List.countP_cons, List.countP_append]
    ring
  have hM : ∀ c v : Int, 1 ≤ v → c ≤ v → max 0 (c - 1) ≤ v := by
    intro c v h1 h2
    rcases max_choice 0 (c - 1) with h | h <;> rw [h] <;> omega
  have hinc1 : incident bond bond.atom1Id = true := by simp [incident]
  have hinc2 : incident bond bond.atom2Id = true := by simp [incident]
  have hmemmap : ∀ a2 ∈ atoms.map h, ∃ a ∈ atoms, a2 = h a := by
    intro a2 ha2
    obtain ⟨a, ha, rfl⟩ := List.mem_map.mp ha2
    exact ⟨a, ha, rfl⟩
  have hcnt2 : ∀ a ∈ atoms, (h a).currentBonds
      = ((L1 ++ L2).countP (fun b => incident b a.id) : Int) := by
    intro a ha
    have hold := hs.countOk a ha
    by_cases h1 : a.id = bond.atom1Id
    · have : h a = decB a := by simp [hh, h1]
      rw [this, decB]
      have hc := hcount a.id
      rw [h1] at hc ⊢
      rw [hinc1, if_pos rfl] at hc
      rw [h1] at hold
      simp only
      omega
    · by_cases h2 : a.id = bond.atom2Id
      · have : h a = decB a := by simp [hh, h1, h2]
        rw [this, decB]
        have hc := hcount a.id
        rw [h2] at hc ⊢
        rw [hinc2, if_pos rfl] at hc
        rw [h2] at hold
        simp only
        omega
      · have hincf : incident bond a.id = false := by
          simp only [incident, Bool.or_eq_false_iff, beq_eq_false_iff_ne, ne_eq]
          exact ⟨fun hc => h1 hc.symm, fun hc => h2 hc.symm⟩
        have : h a = a := by simp [hh, h1, h2]
        rw [this]
        have hc := hcount a.id
        rw [hincf] at hc
        simp only [Bool.false_eq_true, if_false] at hc
        omega
  refine ⟨⟨?_, ?_, ?_, ?_, ?_, ?_⟩, ?_⟩
  · rw [hatoms2, hidsOf]
    exact hs.uidAtoms
  · rw [herase]
    refine hs.uidBonds.sublist (List.Sublist.map _ ?_)
    rw [hsplit]
    exact (L2.sublist_cons_self bond).append_left L1
  · intro bd hbd
    rw [herase] at hbd
    have hbdmem : bd ∈ bonds := by
      rw [hsplit]
      rcases List.mem_append.mp hbd with hmem | hmem
      · exact List.mem_append.mpr (Or.inl hmem)
      · exact List.mem_append.mpr (Or.inr (List.mem_cons_of_mem _ hmem))
    obtain ⟨hne2, ⟨b1, hb1, hb1id⟩, ⟨b2, hb2, hb2id⟩⟩ := hs.bondsWf bd hbdmem
    rw [hatoms2]
    exact ⟨hne2, ⟨h b1, List.mem_map_of_mem _ hb1, (hid b1).trans hb1id⟩,
      ⟨h b2, List.mem_map_of_mem _ hb2, (hid b2).trans hb2id⟩⟩
  · intro a2 ha2
    rw [hatoms2] at ha2
    obtain ⟨a, ha, rfl⟩ := hmemmap a2 ha2
    rw [herase, hid a]
    exact hcnt2 a ha
  · intro a2 ha2
    rw [hatoms2] at ha2
    obtain ⟨a, ha, rfl⟩ := hmemmap a2 ha2
    have hcap := hs.capOk a ha
    have hv := valency_pos a.type
    by_cases h1 : a.id = bond.atom1Id
    · have he : h a = decB a := by simp [hh, h1]
      rw [he, decB]
      simp only
      exact hM _ _ hv hcap
    · by_cases h2 : a.id = bond.atom2Id
      · have he : h a = decB a := by simp [hh, h1, h2]
        rw [he, decB]
        simp only
        exact hM _ _ hv hcap
      · have he : h a = a := by simp [hh, h1, h2]
        rw [he]
        exact hcap
  · intro a2 ha2
    rw [hatoms2] at ha2
    obtain ⟨a, ha, rfl⟩ := hmemmap a2 ha2
    have hb := hs.bondedEmpty a ha
    by_cases h1 : a.id = bond.atom1Id
    · simp [hh, h1, decB, hb]
    · by_cases h2 : a.id = bond.atom2Id <;> simp [hh, h1, h2, decB, hb]
  · -- no stable component appears after the removal
    intro aa haa hst
    rw [hatoms2] at haa
    obtain ⟨a, ha, rfl⟩ := hmemmap aa haa
    rw [hatoms2, herase] at hst
    have hsubL : ∀ bd ∈ L1 ++ L2, bd ∈ bonds := by
      intro bd hbd
      rw [hsplit]
      rcases List.mem_append.mp hbd with hmem | hmem
      · exact List.mem_append.mpr (Or.inl hmem)
      · exact List.mem_append.mpr (Or.inr (List.mem_cons_of_mem _ hmem))
    have hdown : ∀ x y : String, Reaches bonds x y →
        Reaches (L1 ++ L2) x y ∨ Reaches (L1 ++ L2) x bond.atom1Id ∨
          Reaches (L1 ++ L2) x bond.atom2Id := by
      intro x y hxy
      induction hxy with
      | refl => exact Or.inl Relation.ReflTransGen.refl
      | tail hz hadj ih =>
        rename_i z y2
        rcases ih with ih | ih | ih
        · obtain ⟨bd, hbd, hc⟩ := hadj
          have : bd ∈ L1 ++ L2 ∨ bd = bond := by
            rw [hsplit] at hbd
            rcases List.mem_append.mp hbd with hmem | hmem
            · exact Or.inl (List.mem_append.mpr (Or.inl hmem))
            · rcases List.mem_cons.mp hmem with rfl | hmem
              · exact Or.inr rfl
              · exact Or.inl (List.mem_append.mpr (Or.inr hmem))
          rcases this with hbd2 | rfl
          · exact Or.inl (Relation.ReflTransGen.tail ih ⟨bd, hbd2, hc⟩)
          · rcases hc with ⟨e1, _⟩ | ⟨_, e2⟩
            · exact Or.inr (Or.inl (e1 ▸ ih))
            · exact Or.inr (Or.inr (e2 ▸ ih))
        · exact Or.inr (Or.inl ih)
        · exact Or.inr (Or.inr ih)
    -- a decremented endpoint can never be saturated
    have hnotfull : ∀ b ∈ atoms, b.id = bond.atom1Id ∨ b.id = bond.atom2Id →
        ¬ isFull (h b) := by
      intro b hb hbe hfull
      have hpos : 0 < bonds.countP (fun bd => incident bd b.id) := by
        apply List.countP_pos.mpr
        refine ⟨bond, hbmem, ?_⟩
        rcases hbe with he | he <;> simp [incident, he]
      have hcap := hs.capOk b hb
      have hcntb := hs.countOk b hb
      have hdec : h b = decB b := by
        rcases hbe with he | he
        · simp [hh, he]
        · by_cases h1 : b.id = bond.atom1Id <;> simp [hh, h1, he]
      rw [hdec] at hfull
      have hfull2 : max 0 (b.currentBonds - 1) = (ATOM_DEFS b.type).valency := by
        have : (decB b).type = b.type := rfl
        rw [isFull, decB] at hfull
        simpa using hfull
      have hv := valency_pos b.type
      rcases max_choice 0 (b.currentBonds - 1) with hm | hm <;> rw [hm] at hfull2 <;> omega
    have hx2 : (h a).id = a.id := hid a
    rcases Classical.em (Reaches (L1 ++ L2) a.id bond.atom1Id) with hre1 | hre1
    · have hfull := hst.2 (h a1) (List.mem_map_of_mem _ ha1)
        (by rw [(hid a1).trans ha1id, hx2]; exact hre1)
      exact hnotfull a1 ha1 (Or.inl ha1id) hfull
    · rcases Classical.em (Reaches (L1 ++ L2) a.id bond.atom2Id) with hre2 | hre2
      · have hfull := hst.2 (h a2) (List.mem_map_of_mem _ ha2)
          (by rw [(hid a2).trans ha2id, hx2]; exact hre2)
        exact hnotfull a2 ha2 (Or.inr ha2id) hfull
      · -- otherwise `a` already headed a stable component before the undo
        apply hns a ha
        obtain ⟨⟨b2, hb2, hbne, hbr⟩, hall⟩ := hst
        constructor
        · obtain ⟨b, hb, rfl⟩ := hmemmap b2 hb2
          refine ⟨b, hb, ?_, ?_⟩
          · rw [← hid b, ← hx2]
            exact hbne
          · have := reaches_mono hsubL hbr
            rw [hid b, hx2] at this
            exact this
        · intro b hb hr
          rcases hdown a.id b.id hr with hr2 | hr2 | hr2
          · have hbne1 : b.id ≠ bond.atom1Id := by
              intro hc
              exact hre1 (hc ▸ hr2)
            have hbne2 : b.id ≠ bond.atom2Id := by
              intro hc
              exact hre2 (hc ▸ hr2)
            have hfull := hall (h b) (List.mem_map_of_mem _ hb)
              (by rw [hid b, hx2]; exact hr2)
            have : h b = b := by simp [hh, hbne1, hbne2]
            rwa [this] at hfull
          · exact absurd hr2 hre1
          · exact absurd hr2 hre2

end BondArena

namespace BondArena

lemma undoLoop_inv (hist : List String) :
    ∀ (bonds : List BondEntity) (atoms : List AtomEntity),
    StoreInv atoms bonds → (∀ a ∈ atoms, ¬ StableAt atoms bonds a) →
    StoreInv (undoLoop hist bonds atoms).2.2 (undoLoop hist bonds atoms).2.1 ∧
    ∀ a ∈ (undoLoop hist bonds atoms).2.2,
      ¬ StableAt (undoLoop hist bonds atoms).2.2 (undoLoop hist bonds atoms).2.1 a := by
  induction hist with
  | nil =>
    intro bonds atoms hs hns
    exact ⟨hs, hns⟩
  | cons bid rest ih =>
    intro bonds atoms hs hns
    cases hfind : bonds.find? (fun b => b.id == bid) with
    | none =>
      have := ih bonds atoms hs hns
      simpa [undoLoop, hfind] using this
    | some bond =>
      simp only [undoLoop, hfind]
      exact removeBond_inv hs hns hfind

lemma undo_wf {s : SimState} (hw : WF s) : WF (undo s) := by
  have h := undoLoop_inv s.bondHistory s.bonds s.atoms hw.store hw.noStable
  exact ⟨h.1, h.2⟩

/-- Applying an id-preserving double adjustment at two distinct ids is a
pointwise map. -/
lemma adjust2_eq_map {atoms : List AtomEntity} (hnd : (idsOf atoms).Nodup)
    {e1 e2 : String} (hne : e1 ≠ e2) (f : AtomEntity → AtomEntity)
    (hfid : ∀ a, (f a).id = a.id) :
    adjustFirst (fun a => a.id == e2) f (adjustFirst (fun a => a.id == e1) f atoms)
      = atoms.map (fun a => if a.id = e1 then f a else if a.id = e2 then f a else a) := by
  rw [adjustFirst_eq_map_of_nodup hnd e1 f]
  have hids1 : idsOf (atoms.map (fun a => if a.id = e1 then f a else a)) = idsOf atoms :=
    idsOf_map_id_preserve (fun a => by by_cases h : a.id = e1 <;> simp [h, hfid])
  have hnd2 : (idsOf (atoms.map (fun a => if a.id = e1 then f a else a))).Nodup := by
    rw [hids1]
    exact hnd
  rw [adjustFirst_eq_map_of_nodup hnd2 e2 f, List.map_map]
  apply List.map_congr_left
  intro a _
  by_cases h1 : a.id = e1
  · have : (f a).id ≠ e2 := by
      rw [hfid, h1]
      exact hne
    simp [Function.comp, h1, this]
  · by_cases h2 : a.id = e2 <;> simp [Function.comp, h1, h2, Ne.symm hne]

lemma candidatePred_spec {session : List (String × String)}
    {dragger target : AtomEntity}
    (h : candidatePred session dragger target = true) :
    target.id ≠ dragger.id ∧ target.currentBonds < (ATOM_DEFS target.type).valency ∧
    sessionHas session (pairKey dragger.id target.id) = false := by
  simp only [candidatePred, Bool.and_eq_true, Bool.not_eq_true', beq_eq_false_iff_ne, ne_eq,
    decide_eq_true_eq] at h
  exact ⟨h.1.1.1, h.1.1.2, h.2⟩

/-- Inserting the fresh bond of a successful bond attempt, with both
endpoint counters incremented, preserves the store invariant. -/
lemma addBond_storeInv {atoms : List AtomEntity} {bonds : List BondEntity}
    (hs : StoreInv atoms bonds)
    {dragger neighbor : AtomEntity} {session : List (String × String)}
    (hdm : dragger ∈ atoms)
    (hdc : dragger.currentBonds < (ATOM_DEFS dragger.type).valency)
    (hfindN : atoms.find? (candidatePred session dragger) = some neighbor)
    {nid : String} (hfresh : ∀ b ∈ bonds, b.id ≠ nid) :
    StoreInv
      (adjustFirst (fun a => a.id == neighbor.id) incB
        (adjustFirst (fun a => a.id == dragger.id) incB atoms))
      (bonds ++ [⟨nid, dragger.id, neighbor.id, 0⟩]) := by
  have hnm : neighbor ∈ atoms := List.mem_of_find?_eq_some hfindN
  obtain ⟨hne', hnc, _⟩ := candidatePred_spec (List.find?_some hfindN)
  have hne : dragger.id ≠ neighbor.id := fun hc => hne' hc.symm
  have hmap := adjust2_eq_map hs.uidAtoms hne incB (fun a => rfl)
  rw [hmap]
  set g : AtomEntity → AtomEntity := fun a =>
    if a.id = dragger.id then incB a else if a.id = neighbor.id then incB a else a with hg
  have hid : ∀ a, (g a).id = a.id := by
    intro a
    by_cases h1 : a.id = dragger.id
    · simp [hg, h1, incB]
    · by_cases h2 : a.id = neighbor.id <;> simp [hg, h1, h2, incB]
  have hmemmap : ∀ a2 ∈ atoms.map g, ∃ a ∈ atoms, a2 = g a := by
    intro a2 ha2
    obtain ⟨a, ha, rfl⟩ := List.mem_map.mp ha2
    exact ⟨a, ha, rfl⟩
  refine ⟨?_, ?_, ?_, ?_, ?_, ?_⟩
  · rw [idsOf_map_id_preserve hid]
    exact hs.uidAtoms
  · rw [List.map_append]
    refine List.nodup_append.mpr ⟨hs.uidBonds, by simp, ?_⟩
    intro x hx hx2
    obtain ⟨b, hb, rfl⟩ := List.mem_map.mp hx
    simp only [List.map_cons, List.map_nil, List.mem_singleton] at hx2
    exact hfresh b hb hx2
  · intro bd hbd
    rcases List.mem_append.mp hbd with hbd | hbd
    · obtain ⟨hne2, ⟨b1, hb1, hb1id⟩, ⟨b2, hb2, hb2id⟩⟩ := hs.bondsWf bd hbd
      exact ⟨hne2, ⟨g b1, List.mem_map_of_mem _ hb1, (hid b1).trans hb1id⟩,
        ⟨g b2, List.mem_map_of_mem _ hb2, (hid b2).trans hb2id⟩⟩
    · rcases List.mem_singleton.mp hbd with rfl
      exact ⟨hne, ⟨g dragger, List.mem_map_of_mem _ hdm, hid dragger⟩,
        ⟨g neighbor, List.mem_map_of_mem _ hnm, hid neighbor⟩⟩
  · intro a2 ha2
    obtain ⟨a, ha, rfl⟩ := hmemmap a2 ha2
    rw [hid a]
    have hold := hs.countOk a ha
    rw [List.countP_append]
    by_cases h1 : a.id = dragger.id
    · have he : g a = incB a := by simp [hg, h1]
      have hi : incident ⟨nid, dragger.id, neighbor.id, 0⟩ a.id = true := by
        simp [incident, h1]
      rw [he, incB]
      simp [hi]
      omega
    · by_cases h2 : a.id = neighbor.id
      · have he : g a = incB a := by simp [hg, h1, h2]
        have hi : incident ⟨nid, dragger.id, neighbor.id, 0⟩ a.id = true := by
          simp [incident, h2]
        rw [he, incB]
        simp [hi]
        omega
      · have he : g a = a := by simp [hg, h1, h2]
        have hi : incident ⟨nid, dragger.id, neighbor.id, 0⟩ a.id = false := by
          simp only [incident, Bool.or_eq_false_iff, beq_eq_false_iff_ne, ne_eq]
          exact ⟨fun hc => h1 hc.symm, fun hc => h2 hc.symm⟩
        rw [he]
        simp [hi]
        omega
  · intro a2 ha2
    obtain ⟨a, ha, rfl⟩ := hmemmap a2 ha2
    by_cases h1 : a.id = dragger.id
    · have ha' : a = dragger := eq_of_mem_ids_nodup hs.uidAtoms ha hdm h1
      have he : g a = incB a := by simp [hg, h1]
      rw [he, incB]
      simp only
      subst ha'
      omega
    · by_cases h2 : a.id = neighbor.id
      · have ha' : a = neighbor := eq_of_mem_ids_nodup hs.uidAtoms ha hnm h2
        have he : g a = incB a := by simp [hg, h1, h2]
        rw [he, incB]
        simp only
        subst ha'
        omega
      · have he : g a = a := by simp [hg, h1, h2]
        rw [he]
        exact hs.capOk a ha
  · intro a2 ha2
    obtain ⟨a, ha, rfl⟩ := hmemmap a2 ha2
    have hb := hs.bondedEmpty a ha
    by_cases h1 : a.id = dragger.id
    · simp [hg, h1, incB, hb]
    · by_cases h2 : a.id = neighbor.id <;> simp [hg, h1, h2, incB, hb]

/-! Branch equations of `bondAttempt`. -/

lemma bondAttempt_none_eq {s : SimState} (hd : s.draggedAtom = none) (nid : String) :
    bondAttempt s nid = ⟨s, [], none⟩ := by
  simp only [bondAttempt, hd]

lemma bondAttempt_ghost_eq {s : SimState} {did : String} (hd : s.draggedAtom = some did)
    (hfd : s.atoms.find? (fun a => a.id == did) = none) (nid : String) :
    bondAttempt s nid = ⟨s, [], none⟩ := by
  simp only [bondAttempt, hd, hfd]

lemma bondAttempt_full_eq {s : SimState} {did : String} {dragger : AtomEntity}
    (hd : s.draggedAtom = some did)
    (hfd : s.atoms.find? (fun a => a.id == did) = some dragger)
    (hcap : ¬ dragger.currentBonds < (ATOM_DEFS dragger.type).valency) (nid : String) :
    bondAttempt s nid = ⟨s, [], none⟩ := by
  simp only [bondAttempt, hd, hfd, hcap, if_false]

lemma bondAttempt_noCand_eq {s : SimState} {did : String} {dragger : AtomEntity}
    (hd : s.draggedAtom = some did)
    (hfd : s.atoms.find? (fun a => a.id == did) = some dragger)
    (hcap : dragger.currentBonds < (ATOM_DEFS dragger.type).valency)
    (hfn : s.atoms.find? (candidatePred s.session dragger) = none) (nid : String) :
    bondAttempt s nid = ⟨s, [], none⟩ := by
  simp only [bondAttempt, hd, hfd, hcap, if_true, hfn]

lemma bondAttempt_success_eq {s : SimState} {did : String} {dragger neighbor : AtomEntity}
    (hd : s.draggedAtom = some did)
    (hfd : s.atoms.find? (fun a => a.id == did) = some dragger)
    (hcap : dragger.currentBonds < (ATOM_DEFS dragger.type).valency)
    (hfn : s.atoms.find? (candidatePred s.session dragger) = some neighbor)
    (nid : String) :
    bondAttempt s nid =
      ⟨{ s with
          atoms := (checkMolecules
            (adjustFirst (fun a => a.id == neighbor.id) incB
              (adjustFirst (fun a => a.id == dragger.id) incB s.atoms))
            (s.bonds ++ [⟨nid, dragger.id, neighbor.id, 0⟩]) s.draggedAtom).atoms,
          bonds := (checkMolecules
            (adjustFirst (fun a => a.id == neighbor.id) incB
              (adjustFirst (fun a => a.id == dragger.id) incB s.atoms))
            (s.bonds ++ [⟨nid, dragger.id, neighbor.id, 0⟩]) s.draggedAtom).bonds,
          draggedAtom := (checkMolecules
            (adjustFirst (fun a => a.id == neighbor.id) incB
              (adjustFirst (fun a => a.id == dragger.id) incB s.atoms))
            (s.bonds ++ [⟨nid, dragger.id, neighbor.id, 0⟩]) s.draggedAtom).dragged,
          bondHistory := nid :: s.bondHistory,
          session := pairKey dragger.id neighbor.id :: s.session },
        (checkMolecules
          (adjustFirst (fun a => a.id == neighbor.id) incB
            (adjustFirst (fun a => a.id == dragger.id) incB s.atoms))
          (s.bonds ++ [⟨nid, dragger.id, neighbor.id, 0⟩]) s.draggedAtom).events,
        some (pairKey dragger.id neighbor.id)⟩ := by
  simp only [bondAttempt, hd, hfd, hcap, if_true, hfn]

lemma bondAttempt_wf {s : SimState} (hw : WF s) (nid : String)
    (hfresh : ∀ b ∈ s.bonds, b.id ≠ nid) : WF (bondAttempt s nid).state := by
  cases hd : s.draggedAtom with
  | none =>
    rw [bondAttempt_none_eq hd]
    exact ⟨hw.store, hw.noStable⟩
  | some did =>
    cases hfd : s.atoms.find? (fun a => a.id == did) with
    | none =>
      rw [bondAttempt_ghost_eq hd hfd]
      exact ⟨hw.store, hw.noStable⟩
    | some dragger =>
      by_cases hcap : dragger.currentBonds < (ATOM_DEFS dragger.type).valency
      · cases hfn : s.atoms.find? (candidatePred s.session dragger) with
        | none =>
          rw [bondAttempt_noCand_eq hd hfd hcap hfn]
          exact ⟨hw.store, hw.noStable⟩
        | some neighbor =>
          rw [bondAttempt_success_eq hd hfd hcap hfn]
          have hraw := addBond_storeInv hw.store (List.mem_of_find?_eq_some hfd)
            hcap hfn hfresh
          have hout := checkMolecules_inv
            (adjustFirst (fun a => a.id == neighbor.id) incB
              (adjustFirst (fun a => a.id == dragger.id) incB s.atoms))
            (s.bonds ++ [⟨nid, dragger.id, neighbor.id, 0⟩]) s.draggedAtom hraw
          exact ⟨hout.1, hout.2⟩
      · rw [bondAttempt_full_eq hd hfd hcap]
        exact ⟨hw.store, hw.noStable⟩

lemma reaches_isolated {bonds : List BondEntity} {x y : String}
    (hiso : ∀ bd ∈ bonds, bd.atom1Id ≠ y ∧ bd.atom2Id ≠ y)
    (h : Reaches bonds x y) : y = x := by
  induction h with
  | refl => rfl
  | tail hz hadj ih =>
    obtain ⟨bd, hbd, hc⟩ := hadj
    rcases hc with ⟨_, h2⟩ | ⟨h1, _⟩
    · exact absurd h2 (hiso bd hbd).2
    · exact absurd h1 (hiso bd hbd).1

lemma spawn_wf {s : SimState} (hw : WF s) (time : ℚ) (r : SpawnRands) (id : String)
    (w hh : ℚ) (hfresh : ∀ a ∈ s.atoms, a.id ≠ id) : WF (spawnPhase s time r id w hh) := by
  rw [spawnPhase]
  by_cases hg : 1500 < time - s.lastSpawn ∧ s.atoms.length < 18
  · rw [if_pos hg]
    set na : AtomEntity := spawnAtom r id w hh with hna
    have hnaid : na.id = id := rfl
    have hiso : ∀ bd ∈ s.bonds, bd.atom1Id ≠ id ∧ bd.atom2Id ≠ id := by
      intro bd hbd
      obtain ⟨_, ⟨b1, hb1, hb1id⟩, ⟨b2, hb2, hb2id⟩⟩ := hw.store.bondsWf bd hbd
      exact ⟨hb1id ▸ hfresh b1 hb1, hb2id ▸ hfresh b2 hb2⟩
    have hcnt0 : s.bonds.countP (fun b => incident b id) = 0 := by
      apply List.countP_eq_zero.mpr
      intro bd hbd
      simp only [incident, Bool.or_eq_true, beq_iff_eq]
      push_neg
      exact hiso bd hbd
    have hstore : StoreInv (s.atoms ++ [na]) s.bonds := by
      refine ⟨?_, hw.store.uidBonds, ?_, ?_, ?_, ?_⟩
      · rw [idsOf_append]
        refine List.nodup_append.mpr ⟨hw.store.uidAtoms, by simp [idsOf], ?_⟩
        intro x hx hx2
        obtain ⟨a, ha, rfl⟩ := List.mem_map.mp hx
        simp only [idsOf, List.map_cons, List.map_nil, List.mem_singleton, hnaid] at hx2
        exact hfresh a ha hx2
      · intro bd hbd
        obtain ⟨hne2, ⟨b1, hb1, hb1id⟩, ⟨b2, hb2, hb2id⟩⟩ := hw.store.bondsWf bd hbd
        exact ⟨hne2, ⟨b1, List.mem_append.mpr (Or.inl hb1), hb1id⟩,
          ⟨b2, List.mem_append.mpr (Or.inl hb2), hb2id⟩⟩
      · intro a ha
        rcases List.mem_append.mp ha with ha | ha
        · exact hw.store.countOk a ha
        · rcases List.mem_singleton.mp ha with rfl
          have h0 : na.currentBonds = 0 := rfl
          rw [hnaid, hcnt0, h0]
          rfl
      · intro a ha
        rcases List.mem_append.mp ha with ha | ha
        · exact hw.store.capOk a ha
        · rcases List.mem_singleton.mp ha with rfl
          have hv := valency_pos na.type
          have h0 : na.currentBonds = 0 := rfl
          omega
      · intro a ha
        rcases List.mem_append.mp ha with ha | ha
        · exact hw.store.bondedEmpty a ha
        · rcases List.mem_singleton.mp ha with rfl
          rfl
    refine ⟨hstore, ?_⟩
    intro a ha hst
    rcases List.mem_append.mp ha with ha | ha
    · apply hw.noStable a ha
      obtain ⟨⟨b, hb, hbne, hbr⟩, hall⟩ := hst
      have hbold : b ∈ s.atoms := by
        rcases List.mem_append.mp hb with hb | hb
        · exact hb
        · rcases List.mem_singleton.mp hb with rfl
          exfalso
          have hxy := reaches_isolated hiso (hnaid ▸ hbr)
          exact hbne (hnaid.trans hxy)
      refine ⟨⟨b, hbold, hbne, hbr⟩, ?_⟩
      intro b2 hb2 hr2
      exact hall b2 (List.mem_append.mpr (Or.inl hb2)) hr2
    · rcases List.mem_singleton.mp ha with rfl
      obtain ⟨⟨b, hb, hbne, hbr⟩, _⟩ := hst
      have hsym := reaches_symm hbr
      have hiso2 : ∀ bd ∈ s.bonds, bd.atom1Id ≠ na.id ∧ bd.atom2Id ≠ na.id := by
        rw [hnaid]
        exact hiso
      have hxy := reaches_isolated hiso2 hsym
      exact hbne hxy.symm
  · rw [if_neg hg]
    exact ⟨hw.store, hw.noStable⟩

/-- Adjustments that keep the invariant core of each atom keep the core of
the whole list. -/
lemma adjustFirst_mapcore (p : AtomEntity → Bool) (f : AtomEntity → AtomEntity)
    (hf : ∀ a, coreOf (f a) = coreOf a) (l : List AtomEntity) :
    (adjustFirst p f l).map coreOf = l.map coreOf := by
  induction l with
  | nil => rfl
  | cons x xs ih =>
    rw [adjustFirst]
    by_cases hx : p x
    · simp [hx, hf]
    · simp [hx, ih]

/-! Branch equations of the pointer handlers. -/

lemma handlePointerDown_miss_eq {s : SimState} {x y : ℚ}
    (hfd : s.atoms.find? (hitPred x y) = none) :
    handlePointerDown s x y = { s with mouse := (x, y) } := by
  simp only [handlePointerDown, hfd]

lemma handlePointerDown_hit_eq {s : SimState} {x y : ℚ} {clicked : AtomEntity}
    (hfd : s.atoms.find? (hitPred x y) = some clicked) :
    handlePointerDown s x y =
      { s with
          atoms := adjustFirst (fun a => a.id == clicked.id)
            (fun a => { a with isDragging := true, vx := 0, vy := 0 }) s.atoms,
          draggedAtom := some clicked.id,
          session := [],
          mouse := (x, y) } := by
  simp only [handlePointerDown, hfd]

lemma pointerDown_wf {s : SimState} (hw : WF s) (x y : ℚ) :
    WF (handlePointerDown s x y) := by
  cases hfd : s.atoms.find? (hitPred x y) with
  | none =>
    rw [handlePointerDown_miss_eq hfd]
    exact ⟨hw.store, hw.noStable⟩
  | some clicked =>
    rw [handlePointerDown_hit_eq hfd]
    have hcore := adjustFirst_mapcore (fun a => a.id == clicked.id)
      (fun a => { a with isDragging := true, vx := 0, vy := 0 })
      (fun a => rfl) s.atoms
    exact ⟨storeInv_of_mapcore_eq hcore hw.store,
      noStable_of_mapcore_eq hcore hw.noStable⟩

lemma handlePointerUp_none_eq {s : SimState} (hd : s.draggedAtom = none) (r1 r2 : ℚ) :
    handlePointerUp s r1 r2 = (s, []) := by
  simp only [handlePointerUp, hd]

lemma handlePointerUp_ghost_eq {s : SimState} {did : String}
    (hd : s.draggedAtom = some did)
    (hfd : s.atoms.find? (fun a => a.id == did) = none) (r1 r2 : ℚ) :
    handlePointerUp s r1 r2 = ({ s with draggedAtom := none }, []) := by
  simp only [handlePointerUp, hd, hfd]

lemma handlePointerUp_solo_eq {s : SimState} {did : String} {atom : AtomEntity}
    (hd : s.draggedAtom = some did)
    (hfd : s.atoms.find? (fun a => a.id == did) = some atom)
    (hfn : s.atoms.find? (nearPred atom) = none) (r1 r2 : ℚ) :
    handlePointerUp s r1 r2 =
      ({ s with
          atoms := adjustFirst (fun a => a.id == atom.id) undrag s.atoms,
          draggedAtom := none }, []) := by
  simp only [handlePointerUp, hd, hfd, hfn]

lemma handlePointerUp_bonded_eq {s : SimState} {did : String} {atom nearby : AtomEntity}
    (hd : s.draggedAtom = some did)
    (hfd : s.atoms.find? (fun a => a.id == did) = some atom)
    (hfn : s.atoms.find? (nearPred atom) = some nearby)
    (hbonded : isBondedB s.bonds atom.id nearby.id = true) (r1 r2 : ℚ) :
    handlePointerUp s r1 r2 =
      ({ s with
          atoms := adjustFirst (fun a => a.id == atom.id) (nudged r1 r2) s.atoms,
          draggedAtom := none }, []) := by
  simp only [handlePointerUp, hd, hfd, hfn, hbonded, eq_self_iff_true, if_true]

lemma handlePointerUp_shatter_eq {s : SimState} {did : String} {atom nearby : AtomEntity}
    (hd : s.draggedAtom = some did)
    (hfd : s.atoms.find? (fun a => a.id == did) = some atom)
    (hfn : s.atoms.find? (nearPred atom) = some nearby)
    (hbonded : isBondedB s.bonds atom.id nearby.id = false) (r1 r2 : ℚ) :
    handlePointerUp s r1 r2 =
      ({ s with
          atoms := adjustFirst (fun a => a.id == nearby.id)
            (fun a =>
              { a with
                  vx := -10 * (atom.x - nearby.x),
                  vy := -10 * (atom.y - nearby.y) })
            (adjustFirst (fun a => a.id == atom.id)
              (fun a =>
                { a with
                    isDragging := false,
                    vx := 20 * (atom.x - nearby.x),
                    vy := 20 * (atom.y - nearby.y) })
              s.atoms),
          draggedAtom := none },
        [GameEvent.errorEvent (rejectMsg atom nearby)]) := by
  simp only [handlePointerUp, hd, hfd, hfn, hbonded, Bool.false_eq_true, if_false]

lemma pointerUp_wf {s : SimState} (hw : WF s) (r1 r2 : ℚ) :
    WF (handlePointerUp s r1 r2).1 := by
  cases hd : s.draggedAtom with
  | none =>
    rw [handlePointerUp_none_eq hd]
    exact ⟨hw.store, hw.noStable⟩
  | some did =>
    cases hfd : s.atoms.find? (fun a => a.id == did) with
    | none =>
      rw [handlePointerUp_ghost_eq hd hfd]
      exact ⟨hw.store, hw.noStable⟩
    | some atom =>
      cases hfn : s.atoms.find? (nearPred atom) with
      | none =>
        rw [handlePointerUp_solo_eq hd hfd hfn]
        have hcore := adjustFirst_mapcore (fun a => a.id == atom.id)
          undrag (fun a => rfl) s.atoms
        exact ⟨storeInv_of_mapcore_eq hcore hw.store,
          noStable_of_mapcore_eq hcore hw.noStable⟩
      | some nearby =>
        cases hbonded : isBondedB s.bonds atom.id nearby.id with
        | true =>
          rw [handlePointerUp_bonded_eq hd hfd hfn hbonded]
          have hcore := adjustFirst_mapcore (fun a => a.id == atom.id)
            (nudged r1 r2) (fun a => rfl) s.atoms
          exact ⟨storeInv_of_mapcore_eq hcore hw.store,
            noStable_of_mapcore_eq hcore hw.noStable⟩
        | false =>
          rw [handlePointerUp_shatter_eq hd hfd hfn hbonded]
          have hcore1 := adjustFirst_mapcore (fun a => a.id == atom.id)
            (fun a =>
              { a with
                  isDragging := false,
                  vx := 20 * (atom.x - nearby.x),
                  vy := 20 * (atom.y - nearby.y) })
            (fun a => rfl) s.atoms
          have hcore2 := adjustFirst_mapcore (fun a => a.id == nearby.id)
            (fun a =>
              { a with
                  vx := -10 * (atom.x - nearby.x),
                  vy := -10 * (atom.y - nearby.y) })
            (fun a => rfl)
            (adjustFirst (fun a => a.id == atom.id)
              (fun a =>
                { a with
                    isDragging := false,
                    vx := 20 * (atom.x - nearby.x),
                    vy := 20 * (atom.y - nearby.y) })
              s.atoms)
          have hcore := hcore2.trans hcore1
          exact ⟨storeInv_of_mapcore_eq hcore hw.store,
            noStable_of_mapcore_eq hcore hw.noStable⟩

lemma storeInv_empty : StoreInv ([] : List AtomEntity) ([] : List BondEntity) := by
  refine ⟨List.nodup_nil, List.nodup_nil, ?_, ?_, ?_, ?_⟩ <;>
    intro a ha <;> cases ha

lemma wf_initState : WF initState :=
  ⟨storeInv_empty, fun a ha => absurd ha (List.not_mem_nil a)⟩

lemma reset_wf (s : SimState) : WF (resetApply s) :=
  ⟨storeInv_empty, fun a ha => absurd ha (List.not_mem_nil a)⟩

/-- Every reachable state is well-formed: unique atom and bond ids, bond
counters that match the bond list and stay within valency, empty
`bondedAtomIds`, and no stable component left undetected. -/
lemma wf_of_reach {s : SimState} (h : Reach s) : WF s := by
  induction h with
  | init => exact wf_initState
  | step hr hstep ih =>
    cases hstep with
    | physics atoms2 hf =>
      have hcore := forall2_physmatch_mapcore hf
      exact ⟨storeInv_of_mapcore_eq hcore ih.store,
        noStable_of_mapcore_eq hcore ih.noStable⟩
    | spawn time r id w hh hfresh => exact spawn_wf ih time r id w hh hfresh
    | bondTick nid hfresh => exact bondAttempt_wf ih nid hfresh
    | pointerDown x y => exact pointerDown_wf ih x y
    | pointerMove x y => exact ⟨ih.store, ih.noStable⟩
    | pointerUp r1 r2 => exact pointerUp_wf ih r1 r2
    | undoCall => exact undo_wf ih
    | reset => exact reset_wf _

end BondArena

namespace BondArena

lemma bondAttempt_created_some {s : SimState} {nid : String} {p : String × String}
    (h : (bondAttempt s nid).created = some p) :
    ∃ did dragger neighbor,
      s.draggedAtom = some did ∧
      s.atoms.find? (fun a => a.id == did) = some dragger ∧
      dragger.currentBonds < (ATOM_DEFS dragger.type).valency ∧
      s.atoms.find? (candidatePred s.session dragger) = some neighbor ∧
      p = pairKey dragger.id neighbor.id := by
  cases hd : s.draggedAtom with
  | none =>
    rw [bondAttempt_none_eq hd] at h
    simp at h
  | some did =>
    cases hfd : s.atoms.find? (fun a => a.id == did) with
    | none =>
      rw [bondAttempt_ghost_eq hd hfd] at h
      simp at h
    | some dragger =>
      by_cases hcap : dragger.currentBonds < (ATOM_DEFS dragger.type).valency
      · cases hfn : s.atoms.find? (candidatePred s.session dragger) with
        | none =>
          rw [bondAttempt_noCand_eq hd hfd hcap hfn] at h
          simp at h
        | some neighbor =>
          rw [bondAttempt_success_eq hd hfd hcap hfn] at h
          simp only [Option.some.injEq] at h
          exact ⟨did, dragger, neighbor, rfl, hfd, hcap, hfn, h.symm⟩
      · rw [bondAttempt_full_eq hd hfd hcap] at h
        simp at h

lemma labelOfCreated_eq_created {o : Option (String × String)} {p : String × String}
    (h : labelOfCreated o = Lab.created p) : o = some p := by
  cases o with
  | none => cases h
  | some q =>
    cases h
    rfl

/-- Inversion: only a bond tick carries a `created` label. -/
lemma lstep_created_inv {s1 s2 : SimState} {l : Lab} (hstep : LStep s1 l s2) :
    ∀ p, l = Lab.created p →
      ∃ nid, (bondAttempt s1 nid).created = some p ∧ s2 = (bondAttempt s1 nid).state := by
  cases hstep with
  | physics atoms2 hf => exact fun p hp => Lab.noConfusion hp
  | spawn time r id w hh hfresh => exact fun p hp => Lab.noConfusion hp
  | bondTick nid hfresh =>
    intro p hp
    exact ⟨nid, labelOfCreated_eq_created hp, rfl⟩
  | pointerDown x y => exact fun p hp => Lab.noConfusion hp
  | pointerMove x y => exact fun p hp => Lab.noConfusion hp
  | pointerUp r1 r2 => exact fun p hp => Lab.noConfusion hp
  | undoCall => exact fun p hp => Lab.noConfusion hp
  | reset => exact fun p hp => Lab.noConfusion hp

/-- A `created p` step is a successful bond tick: the pair enters the
session, and was not in the session before. -/
lemma created_step_facts {s1 s2 : SimState} {p : String × String}
    (hstep : LStep s1 (Lab.created p) s2) :
    p ∈ s2.session ∧ sessionHas s1.session p = false := by
  obtain ⟨nid, hc, rfl⟩ := lstep_created_inv hstep p rfl
  obtain ⟨did, dragger, neighbor, hd, hfd, hcap, hfn, hp⟩ := bondAttempt_created_some hc
  constructor
  · rw [bondAttempt_success_eq hd hfd hcap hfn]
    exact hp ▸ List.mem_cons_self _ _
  · subst hp
    exact (candidatePred_spec (List.find?_some hfn)).2.2

end BondArena

namespace BondArena

/-- No in-gesture step removes a pair from the drag-session set. -/
lemma gstep_session_mono {s s2 : SimState} (h : GStep s s2) {p : String × String}
    (hp : p ∈ s.session) : p ∈ s2.session := by
  obtain ⟨l, hstep, hnd, hnr⟩ := h
  cases hstep with
  | physics atoms2 hf => exact hp
  | spawn time r id w hh hfresh =>
    rw [spawnPhase]
    split
    · exact hp
    · exact hp
  | bondTick nid hfresh =>
    cases hd : s.draggedAtom with
    | none =>
      rw [bondAttempt_none_eq hd]
      exact hp
    | some did =>
      cases hfd : s.atoms.find? (fun a => a.id == did) with
      | none =>
        rw [bondAttempt_ghost_eq hd hfd]
        exact hp
      | some dragger =>
        by_cases hcap : dragger.currentBonds < (ATOM_DEFS dragger.type).valency
        · cases hfn : s.atoms.find? (candidatePred s.session dragger) with
          | none =>
            rw [bondAttempt_noCand_eq hd hfd hcap hfn]
            exact hp
          | some neighbor =>
            rw [bondAttempt_success_eq hd hfd hcap hfn]
            exact List.mem_cons_of_mem _ hp
        · rw [bondAttempt_full_eq hd hfd hcap]
          exact hp
  | pointerDown x y => exact absurd rfl hnd
  | pointerMove x y => exact hp
  | pointerUp r1 r2 =>
    cases hd : s.draggedAtom with
    | none =>
      rw [handlePointerUp_none_eq hd]
      exact hp
    | some did =>
      cases hfd : s.atoms.find? (fun a => a.id == did) with
      | none =>
        rw [handlePointerUp_ghost_eq hd hfd]
        exact hp
      | some atom =>
        cases hfn : s.atoms.find? (nearPred atom) with
        | none =>
          rw [handlePointerUp_solo_eq hd hfd hfn]
          exact hp
        | some nearby =>
          cases hbonded : isBondedB s.bonds atom.id nearby.id with
          | true =>
            rw [handlePointerUp_bonded_eq hd hfd hfn hbonded]
            exact hp
          | false =>
            rw [handlePointerUp_shatter_eq hd hfd hfn hbonded]
            exact hp
  | undoCall => exact hp
  | reset => exact absurd rfl hnr

lemma gsteps_session_mono {s s2 : SimState} (h : GSteps s s2) {p : String × String}
    (hp : p ∈ s.session) : p ∈ s2.session := by
  induction h with
  | refl => exact hp
  | tail hs hstep ih => exact gstep_session_mono hstep ih

lemma bondAttempt_created_not_session {s : SimState} {nid : String} {p : String × String}
    (h : (bondAttempt s nid).created = some p) : sessionHas s.session p = false := by
  obtain ⟨did, dragger, neighbor, hd, hfd, hcap, hfn, hp⟩ := bondAttempt_created_some h
  subst hp
  exact (candidatePred_spec (List.find?_some hfn)).2.2

/-! Counting helpers for the handshake identity. -/

lemma countP_id_eq_one {atoms : List AtomEntity} (hnd : (idsOf atoms).Nodup)
    {e : String} (hex : ∃ a ∈ atoms, a.id = e) :
    atoms.countP (fun a => e == a.id) = 1 := by
  induction atoms with
  | nil =>
    obtain ⟨a, ha, _⟩ := hex
    cases ha
  | cons x xs ih =>
    simp only [idsOf, List.map_cons, List.nodup_cons] at hnd
    rw [List.countP_cons]
    by_cases hx : x.id = e
    · have hnone : xs.countP (fun a => e == a.id) = 0 := by
        apply List.countP_eq_zero.mpr
        intro a ha hc
        exact hnd.1 (List.mem_map.mpr ⟨a, ha, (beq_iff_eq.mp hc).symm.trans hx.symm⟩)
      simp [hnone, hx]
    · obtain ⟨a, ha, haid⟩ := hex
      rcases List.mem_cons.mp ha with rfl | ha'
      · exact absurd haid hx
      · have hxs := ih hnd.2 ⟨a, ha', haid⟩
        have hxf : (e == x.id) = false := by
          simp only [beq_eq_false_iff_ne, ne_eq]
          exact fun hc => hx hc.symm
        simp [hxs, hxf]

lemma countP_or_disjoint {l : List α} {p q : α → Bool}
    (h : ∀ x ∈ l, ¬(p x = true ∧ q x = true)) :
    l.countP (fun x => p x || q x) = l.countP p + l.countP q := by
  induction l with
  | nil => rfl
  | cons x xs ih =>
    have ihx := ih (fun y hy => h y (List.mem_cons_of_mem _ hy))
    rw [List.countP_cons, List.countP_cons, List.countP_cons, ihx]
    by_cases hp : p x = true <;> by_cases hq : q x = true
    · exact absurd ⟨hp, hq⟩ (h x (List.mem_cons_self x xs))
    · simp [hp, hq]
      omega
    · simp [hp, hq]
      omega
    · simp [hp, hq]

lemma countP_incident_eq_two {atoms : List AtomEntity} {bonds : List BondEntity}
    (hs : StoreInv atoms bonds) {b : BondEntity} (hb : b ∈ bonds) :
    atoms.countP (fun a => incident b a.id) = 2 := by
  obtain ⟨hne, hex1, hex2⟩ := hs.bondsWf b hb
  have hdisj : ∀ a ∈ atoms,
      ¬((b.atom1Id == a.id) = true ∧ (b.atom2Id == a.id) = true) := by
    intro a _ hc
    exact hne ((beq_iff_eq.mp hc.1).trans (beq_iff_eq.mp hc.2).symm)
  have hsplit : atoms.countP (fun a => incident b a.id)
      = atoms.countP (fun a => b.atom1Id == a.id)
        + atoms.countP (fun a => b.atom2Id == a.id) := by
    simp only [incident]
    exact countP_or_disjoint hdisj
  have he1 : ∃ a ∈ atoms, a.id = b.atom1Id := hex1
  have he2 : ∃ a ∈ atoms, a.id = b.atom2Id := hex2
  rw [hsplit, countP_id_eq_one hs.uidAtoms he1, countP_id_eq_one hs.uidAtoms he2]

lemma sum_map_const_two :
    ∀ l : List BondEntity, (l.map (fun _ => (2 : Int))).sum = 2 * l.length
  | [] => rfl
  | b :: bs => by
    simp only [List.map_cons, List.sum_cons, List.length_cons, sum_map_const_two bs]
    push_cast
    ring

end BondArena

namespace BondArena

lemma getD_mem_of_default_mem {l : List AtomType} {d : AtomType} (hd : d ∈ l) (n : Nat) :
    l.getD n d ∈ l := by
  rcases Nat.lt_or_ge n l.length with hlt | hge
  · rw [List.getD_eq_getElem l d hlt]
    exact List.getElem_mem hlt
  · rw [List.getD_eq_default l d hge]
    exact hd

/-- C1: in every reachable state every atom's `currentBonds` is at most its
type's valency, and a bond is only ever created after the tick has checked
that both the dragged atom and the chosen neighbor still have spare
capacity — an over-capacity attempt is refused, never clamped. -/
theorem C1_capacity_refusal {s : SimState} (h : Reach s) :
    (∀ a ∈ s.atoms, a.currentBonds ≤ (ATOM_DEFS a.type).valency) ∧
    ∀ (nid : String) (p : String × String),
      (bondAttempt s nid).created = some p →
      ∃ did dragger neighbor,
        s.draggedAtom = some did ∧
        s.atoms.find? (fun a => a.id == did) = some dragger ∧
        s.atoms.find? (candidatePred s.session dragger) = some neighbor ∧
        dragger.currentBonds < (ATOM_DEFS dragger.type).valency ∧
        neighbor.currentBonds < (ATOM_DEFS neighbor.type).valency := by
  refine ⟨(wf_of_reach h).store.capOk, ?_⟩
  intro nid p hc
  obtain ⟨did, dragger, neighbor, hd, hfd, hcap, hfn, _⟩ := bondAttempt_created_some hc
  exact ⟨did, dragger, neighbor, hd, hfd, hfn, hcap,
    (candidatePred_spec (List.find?_some hfn)).2.1⟩

/-- Witness for C1 at the reachable state `demoD`. -/
theorem C1_witness :
    ({ atomA1g with currentBonds := 1 } : AtomEntity).currentBonds
      ≤ (ATOM_DEFS ({ atomA1g with currentBonds := 1 } : AtomEntity).type).valency :=
  (C1_capacity_refusal reach_demoD).1 _ (by decide)

/-- C2: in every reachable state the sum of all `currentBonds` counters is
twice the number of bond records. -/
theorem C2_handshake {s : SimState} (h : Reach s) :
    (s.atoms.map (fun a => a.currentBonds)).sum = 2 * (s.bonds.length : Int) := by
  have hs := (wf_of_reach h).store
  have h1 : (s.atoms.map (fun a => a.currentBonds)).sum
      = (s.atoms.map (fun a => (s.bonds.countP (fun b => incident b a.id) : Int))).sum := by
    congr 1
    exact List.map_congr_left (fun a ha => hs.countOk a ha)
  rw [h1, sum_countP_swap]
  have h2 : ∀ b ∈ s.bonds,
      ((s.atoms.countP (fun a => incident b a.id) : Nat) : Int) = 2 := by
    intro b hb
    rw [countP_incident_eq_two hs hb]
    rfl
  rw [List.map_congr_left h2, sum_map_const_two]

/-- Witness for C2 at the reachable state `demoD`. -/
theorem C2_witness :
    (demoD.atoms.map (fun a => a.currentBonds)).sum = 2 * (demoD.bonds.length : Int) :=
  C2_handshake reach_demoD

/-- C3: the stability detector reports exactly the stable components —
every reported group is a duplicate-free connected component of size at
least two whose members are all saturated (so a component with any member
below valency is never reported), every atom sitting in a stable component
is reported, one score event of 100 points per member plus one composition
event is emitted per group, and exactly the members of reported groups
(and every bond touching them) are removed. -/
theorem C3_detector (atoms : List AtomEntity) (bonds : List BondEntity) (dr : Option String)
    (Huid : (idsOf atoms).Nodup)
    (Hex : ∀ bd ∈ bonds,
      (∃ a ∈ atoms, a.id = bd.atom1Id) ∧ (∃ a ∈ atoms, a.id = bd.atom2Id)) :
    (∀ g ∈ reportedGroups atoms bonds, IsStableComponent atoms bonds g) ∧
    (∀ a ∈ atoms, StableAt atoms bonds a → ∃ g ∈ reportedGroups atoms bonds, a ∈ g) ∧
    ((checkMolecules atoms bonds dr).events
      = (reportedGroups atoms bonds).flatMap
          (fun g => [GameEvent.scoreEvent (100 * g.length),
                     GameEvent.moleculeFormed (g.map (fun a => a.type))])) ∧
    (∀ a ∈ atoms, (a ∈ (checkMolecules atoms bonds dr).atoms ↔
      ∀ g ∈ reportedGroups atoms bonds, a ∉ g)) ∧
    (∀ b2 ∈ bonds, (b2 ∈ (checkMolecules atoms bonds dr).bonds ↔
      (∀ g ∈ reportedGroups atoms bonds, b2.atom1Id ∉ idsOf g) ∧
      (∀ g ∈ reportedGroups atoms bonds, b2.atom2Id ∉ idsOf g))) := by
  have hsound := reported_isStable Huid Hex
  have hea : (checkMolecules atoms bonds dr).atoms
      = atoms.filter (fun a => !(removedIds atoms bonds).contains a.id) := rfl
  have heb : (checkMolecules atoms bonds dr).bonds
      = bonds.filter (fun b => !(removedIds atoms bonds).contains b.atom1Id &&
                               !(removedIds atoms bonds).contains b.atom2Id) := rfl
  refine ⟨hsound, stableAt_mem_reported Huid Hex, rfl, ?_, ?_⟩
  · intro a ha
    rw [hea]
    constructor
    · intro hmem g hg hag
      have h1 := (not_contains_iff _ _).mp (List.mem_filter.mp hmem).2
      exact h1 (mem_removedIds.mpr ⟨g, hg, List.mem_map.mpr ⟨a, hag, rfl⟩⟩)
    · intro hall
      apply List.mem_filter.mpr
      refine ⟨ha, (not_contains_iff _ _).mpr ?_⟩
      intro hx
      obtain ⟨g, hg, hidg⟩ := mem_removedIds.mp hx
      obtain ⟨m, hm, hmid⟩ := List.mem_map.mp hidg
      have hsub := (hsound g hg).2.2.1
      have hma : m = a := eq_of_mem_ids_nodup Huid (hsub m hm) ha hmid
      exact hall g hg (hma ▸ hm)
  · intro b2 hb2
    rw [heb]
    constructor
    · intro hmem
      have hcond := (List.mem_filter.mp hmem).2
      simp only [Bool.and_eq_true] at hcond
      have h1 := (not_contains_iff _ _).mp hcond.1
      have h2 := (not_contains_iff _ _).mp hcond.2
      exact ⟨fun g hg hx => h1 (mem_removedIds.mpr ⟨g, hg, hx⟩),
        fun g hg hx => h2 (mem_removedIds.mpr ⟨g, hg, hx⟩)⟩
    · rintro ⟨h1, h2⟩
      apply List.mem_filter.mpr
      refine ⟨hb2, ?_⟩
      simp only [Bool.and_eq_true]
      constructor
      · refine (not_contains_iff _ _).mpr ?_
        intro hx
        obtain ⟨g, hg, hidg⟩ := mem_removedIds.mp hx
        exact h1 g hg hidg
      · refine (not_contains_iff _ _).mpr ?_
        intro hx
        obtain ⟨g, hg, hidg⟩ := mem_removedIds.mp hx
        exact h2 g hg hidg

/-- Witness for C3 on the saturated water store. -/
theorem C3_witness :
    (checkMolecules waterAtoms waterBonds none).events
      = (reportedGroups waterAtoms waterBonds).flatMap
          (fun g => [GameEvent.scoreEvent (100 * g.length),
                     GameEvent.moleculeFormed (g.map (fun a => a.type))]) :=
  (C3_detector waterAtoms waterBonds none (by decide) (by decide)).2.2.1

/-- C4: once a pair of atoms bonds during a drag gesture, no later tick of
the same gesture (no intervening pointer-down or reset) creates a bond
between the same unordered pair again; and a pointer-down that hits an
atom clears the drag-session pair set, permitting a later re-bond. -/
theorem C4_session_gating {s1 s2 s3 : SimState} {p : String × String}
    (hstep : LStep s1 (Lab.created p) s2) (hg : GSteps s2 s3) :
    (∀ nid, (bondAttempt s3 nid).created ≠ some p) ∧
    ∀ (s : SimState) (x y : ℚ) (clicked : AtomEntity),
      s.atoms.find? (hitPred x y) = some clicked →
      (handlePointerDown s x y).session = [] := by
  constructor
  · intro nid hc
    have hps2 : p ∈ s2.session := (created_step_facts hstep).1
    have hps3 : p ∈ s3.session := gsteps_session_mono hg hps2
    have hfalse := bondAttempt_created_not_session hc
    have htrue : sessionHas s3.session p = true := (sessionHas_iff _ _).mpr hps3
    rw [hfalse] at htrue
    exact Bool.noConfusion htrue
  · intro s x y clicked hfd
    rw [handlePointerDown_hit_eq hfd]

/-- Witness for C4: after the H–O bond of `demoD` formed, an immediately
following tick refuses to bond the same pair again. -/
theorem C4_witness : (bondAttempt demoD "b2").created ≠ some ("a1", "a2") :=
  (C4_session_gating
    (by
      have h := LStep.bondTick demoC "b1" (by decide)
      rw [bond_eq] at h
      exact h)
    Relation.ReflTransGen.refl).1 "b2"

/-- C5: `undo` pops recorded bond ids newest-first; a popped id whose bond
no longer exists is skipped; the first id whose bond still exists has that
single bond spliced out and both endpoint counters decremented (floored at
zero), and the loop stops; an exhausted history is a no-op. -/
theorem C5_undo (s : SimState) :
    (s.bondHistory = [] → undo s = s) ∧
    (∀ bid rest, s.bondHistory = bid :: rest →
      s.bonds.find? (fun b => b.id == bid) = none →
      undo s = undo { s with bondHistory := rest }) ∧
    (∀ bid rest bond, s.bondHistory = bid :: rest →
      s.bonds.find? (fun b => b.id == bid) = some bond →
      undo s =
        { s with
            bondHistory := rest,
            bonds := s.bonds.eraseP (fun b => b.id == bid),
            atoms := adjustFirst (fun a => a.id == bond.atom2Id) decB
              (adjustFirst (fun a => a.id == bond.atom1Id) decB s.atoms) }) := by
  have he : undo s = { s with
      bondHistory := (undoLoop s.bondHistory s.bonds s.atoms).1,
      bonds := (undoLoop s.bondHistory s.bonds s.atoms).2.1,
      atoms := (undoLoop s.bondHistory s.bonds s.atoms).2.2 } := rfl
  refine ⟨?_, ?_, ?_⟩
  · intro hh
    rw [he, hh]
    simp only [undoLoop]
    rw [← hh]
  · intro bid rest hh hfind
    rw [he, hh]
    simp only [undoLoop, hfind]
    rfl
  · intro bid rest bond hh hfind
    rw [he, hh]
    simp only [undoLoop, hfind]

/-- Witness for C5: undoing at `demoD` removes the single recorded H–O
bond and decrements both endpoints. -/
theorem C5_witness :
    undo demoD =
      { demoD with
          bondHistory := [],
          bonds := demoD.bonds.eraseP (fun b => b.id == "b1"),
          atoms := adjustFirst (fun a => a.id == "a2") decB
            (adjustFirst (fun a => a.id == "a1") decB demoD.atoms) } :=
  (C5_undo demoD).2.2 "b1" [] ⟨"b1", "a1", "a2", 0⟩ rfl (by decide)

end BondArena

namespace BondArena

/-- C6: when the released atom has a nearby atom (within the wider
rejection radius) and no bond of any multiplicity joins them, exactly one
error event with the diagnostic message is emitted, the bond list is
untouched, and both atoms get opposed velocity impulses along the
separation axis; when a bond does join them, no event is emitted and only
the released atom gets the small random nudge. -/
theorem C6_release {s : SimState} {did : String} {atom nearby : AtomEntity}
    (hd : s.draggedAtom = some did)
    (hfd : s.atoms.find? (fun a => a.id == did) = some atom)
    (hfn : s.atoms.find? (nearPred atom) = some nearby) (r1 r2 : ℚ) :
    (isBondedB s.bonds atom.id nearby.id = false →
      (handlePointerUp s r1 r2).2 = [GameEvent.errorEvent (rejectMsg atom nearby)] ∧
      (handlePointerUp s r1 r2).1.bonds = s.bonds ∧
      (handlePointerUp s r1 r2).1.atoms
        = adjustFirst (fun a => a.id == nearby.id)
            (fun a =>
              { a with
                  vx := -10 * (atom.x - nearby.x),
                  vy := -10 * (atom.y - nearby.y) })
            (adjustFirst (fun a => a.id == atom.id)
              (fun a =>
                { a with
                    isDragging := false,
                    vx := 20 * (atom.x - nearby.x),
                    vy := 20 * (atom.y - nearby.y) })
              s.atoms)) ∧
    (isBondedB s.bonds atom.id nearby.id = true →
      (handlePointerUp s r1 r2).2 = [] ∧
      (handlePointerUp s r1 r2).1.bonds = s.bonds ∧
      (handlePointerUp s r1 r2).1.atoms
        = adjustFirst (fun a => a.id == atom.id) (nudged r1 r2) s.atoms) := by
  constructor
  · intro hbonded
    rw [handlePointerUp_shatter_eq hd hfd hfn hbonded]
    exact ⟨rfl, rfl, rfl⟩
  · intro hbonded
    rw [handlePointerUp_bonded_eq hd hfd hfn hbonded]
    exact ⟨rfl, rfl, rfl⟩

/-- Witness for C6: releasing the dragged hydrogen of `upState` next to
the saturated hydrogen emits exactly the diagnostic error event. -/
theorem C6_witness :
    (handlePointerUp upState (1/2) (1/2)).2
      = [GameEvent.errorEvent (rejectMsg upAtom1 upAtom2)] :=
  ((C6_release rfl (by decide) (by with_unfolding_all decide) (1/2) (1/2)).1
    (by decide)).1

/-- C7 (amended): a stability scan runs inside every bond creation, and in
every reachable state — in particular immediately after an undo, which
performs no scan of its own — rerunning the detector is a no-op. -/
theorem C7_scan_quiescence {s : SimState} (h : Reach s) : checkStep s = s := by
  have hw := wf_of_reach h
  have hq : checkMolecules s.atoms s.bonds s.draggedAtom
      = ⟨s.atoms, s.bonds, s.draggedAtom, []⟩ :=
    checkMolecules_quiescent hw.store.uidAtoms
      (fun bd hbd => ⟨(hw.store.bondsWf bd hbd).2.1, (hw.store.bondsWf bd hbd).2.2⟩)
      hw.noStable
  have he : checkStep s = { s with
      atoms := (checkMolecules s.atoms s.bonds s.draggedAtom).atoms,
      bonds := (checkMolecules s.atoms s.bonds s.draggedAtom).bonds,
      draggedAtom := (checkMolecules s.atoms s.bonds s.draggedAtom).dragged } := rfl
  rw [he, hq]

/-- Witness for C7 at the reachable state `demoD`. -/
theorem C7_witness : checkStep demoD = demoD :=
  C7_scan_quiescence reach_demoD

/-- Counterexample for C7 as stated: `undo` itself performs no stability
scan — on a store holding a ready-made stable H–H pair, the state after
`undo` differs from the state after `undo` followed by a scan. -/
theorem C7_cex : undo sBad ≠ checkStep (undo sBad) := by decide

/-- C8 (amended): `bondedAtomIds` is initialised empty and never written
again — in every reachable state it is the empty list for every atom,
regardless of the bond records. -/
theorem C8_bonded_ids_empty {s : SimState} (h : Reach s) :
    ∀ a ∈ s.atoms, a.bondedAtomIds = [] :=
  (wf_of_reach h).store.bondedEmpty

/-- Witness for C8 at the reachable state `demoD`. -/
theorem C8_witness :
    ({ atomA2 with currentBonds := 1 } : AtomEntity).bondedAtomIds = [] :=
  C8_bonded_ids_empty reach_demoD _ (by decide)

/-- Counterexample for C8 as stated: in the reachable state `demoD` a bond
joins `a1` and `a2`, yet both atoms' `bondedAtomIds` are empty rather than
naming each other. -/
theorem C8_cex :
    Reach demoD ∧
    (∃ b ∈ demoD.bonds, b.atom1Id = "a1" ∧ b.atom2Id = "a2") ∧
    ∀ a ∈ demoD.atoms, a.bondedAtomIds = [] := by
  refine ⟨reach_demoD, ⟨⟨"b1", "a1", "a2", 0⟩, by decide, rfl, rfl⟩, by decide⟩

/-- C9 (amended): the spawner runs exactly under the population-cap and
interval guard, the new atom's type comes from the fixed weighted table,
its position is just outside one of the four arena edges, and each
velocity component lies in `[-1, 1]` — the velocity is random
per-component, not directed into the arena. -/
theorem C9_spawner (s : SimState) (time : ℚ) (r : SpawnRands) (id : String) (w hh : ℚ)
    (hvx0 : 0 ≤ r.rVx) (hvx1 : r.rVx ≤ 1) (hvy0 : 0 ≤ r.rVy) (hvy1 : r.rVy ≤ 1) :
    (¬ (1500 < time - s.lastSpawn ∧ s.atoms.length < 18) →
      spawnPhase s time r id w hh = s) ∧
    ((1500 < time - s.lastSpawn ∧ s.atoms.length < 18) →
      spawnPhase s time r id w hh
        = { s with atoms := s.atoms ++ [spawnAtom r id w hh], lastSpawn := time }) ∧
    (spawnAtom r id w hh).type ∈ spawnTypes ∧
    ((spawnAtom r id w hh).x = -(ATOM_DEFS (spawnAtom r id w hh).type).radius ∨
     (spawnAtom r id w hh).x = w + (ATOM_DEFS (spawnAtom r id w hh).type).radius ∨
     (spawnAtom r id w hh).y = -(ATOM_DEFS (spawnAtom r id w hh).type).radius ∨
     (spawnAtom r id w hh).y = hh + (ATOM_DEFS (spawnAtom r id w hh).type).radius) ∧
    (-1 ≤ (spawnAtom r id w hh).vx ∧ (spawnAtom r id w hh).vx ≤ 1 ∧
     -1 ≤ (spawnAtom r id w hh).vy ∧ (spawnAtom r id w hh).vy ≤ 1) := by
  refine ⟨?_, ?_, ?_, ?_, ?_⟩
  · intro hng
    rw [spawnPhase, if_neg hng]
  · intro hg
    rw [spawnPhase, if_pos hg]
  · have ht : (spawnAtom r id w hh).type
        = spawnTypes.getD (Int.toNat ⌊r.rT * (spawnTypes.length : ℚ)⌋) AtomType.H := rfl
    rw [ht]
    exact getD_mem_of_default_mem (by decide) _
  · by_cases h1 : r.rAxis > 1/2
    · by_cases h2 : r.rSide > 1/2
      · exact Or.inl (by simp only [spawnAtom, if_pos h1, if_pos h2])
      · exact Or.inr (Or.inl (by simp only [spawnAtom, if_pos h1, if_neg h2]))
    · by_cases h2 : r.rSide > 1/2
      · exact Or.inr (Or.inr (Or.inl (by simp only [spawnAtom, if_neg h1, if_pos h2])))
      · exact Or.inr (Or.inr (Or.inr (by simp only [spawnAtom, if_neg h1, if_neg h2])))
  · have hvx : (spawnAtom r id w hh).vx = (r.rVx - 1/2) * 2 := rfl
    have hvy : (spawnAtom r id w hh).vy = (r.rVy - 1/2) * 2 := rfl
    rw [hvx, hvy]
    refine ⟨by linarith, by linarith, by linarith, by linarith⟩

/-- Witness for C9 on the draws `rsH`. -/
theorem C9_witness :
    -1 ≤ (spawnAtom rsH "a1" 800 600).vx ∧ (spawnAtom rsH "a1" 800 600).vx ≤ 1 ∧
    -1 ≤ (spawnAtom rsH "a1" 800 600).vy ∧ (spawnAtom rsH "a1" 800 600).vy ≤ 1 :=
  (C9_spawner initState 2000 rsH "a1" 800 600 (by norm_num [rsH]) (by norm_num [rsH])
    (by norm_num [rsH]) (by norm_num [rsH])).2.2.2.2

/-- Counterexample for C9 as stated: the draws `rsOut` put the atom just
outside the left edge with a velocity pointing further left — the initial
velocity is not inward. -/
theorem C9_cex :
    (spawnAtom rsOut "x" 800 600).x < 0 ∧ (spawnAtom rsOut "x" 800 600).vx < 0 ∧
    ¬ inwardVelocity 800 600 (spawnAtom rsOut "x" 800 600) := by
  have he : spawnAtom rsOut "x" 800 600 =
      { id := "x", type := AtomType.H, x := -20, y := 50, vx := -1, vy := 0,
        currentBonds := 0, bondedAtomIds := [], isDragging := false, fxScale := 0 } := by
    rw [spawnAtom]
    norm_num [spawnTypes, ATOM_DEFS, rsOut]
  rw [he]
  refine ⟨by norm_num, by norm_num, ?_⟩
  intro hcon
  have h1 := hcon.1 (by norm_num)
  norm_num at h1

/-- C10: when the stability scan removes the dragged atom's component the
drag reference is cleared in the same step (and kept, with its atom
surviving, otherwise); and a tick whose dragged id matches no stored atom
leaves the state untouched, so a stale reference is never dereferenced. -/
theorem C10_dragged_cleanup :
    (∀ (atoms : List AtomEntity) (bonds : List BondEntity) (d : String),
      ((removedIds atoms bonds).contains d = true →
        (checkMolecules atoms bonds (some d)).dragged = none) ∧
      ((removedIds atoms bonds).contains d = false →
        (checkMolecules atoms bonds (some d)).dragged = some d ∧
        (d ∈ idsOf atoms → d ∈ idsOf (checkMolecules atoms bonds (some d)).atoms))) ∧
    ∀ (s : SimState) (did nid : String),
      s.draggedAtom = some did →
      s.atoms.find? (fun a => a.id == did) = none →
      bondAttempt s nid = ⟨s, [], none⟩ := by
  refine ⟨?_, fun s did nid hd hfd => bondAttempt_ghost_eq hd hfd nid⟩
  intro atoms bonds d
  constructor
  · intro hc
    simp only [checkMolecules]
    rw [if_pos hc]
  · intro hc
    refine ⟨?_, ?_⟩
    · simp only [checkMolecules]
      rw [if_neg (by rw [hc]; exact Bool.false_ne_true)]
    intro hmem
    obtain ⟨a, ha, haid⟩ := List.mem_map.mp hmem
    have hsurv : a ∈ (checkMolecules atoms bonds (some d)).atoms := by
      have hea : (checkMolecules atoms bonds (some d)).atoms
          = atoms.filter (fun a => !(removedIds atoms bonds).contains a.id) := rfl
      rw [hea]
      apply List.mem_filter.mpr
      refine ⟨ha, ?_⟩
      rw [haid, hc]
      rfl
    exact List.mem_map.mpr ⟨a, hsurv, haid⟩

/-- Witness for C10: the water scan removes the dragged oxygen and clears
the drag reference. -/
theorem C10_witness :
    (checkMolecules waterAtoms waterBonds (some "o")).dragged = none :=
  (C10_dragged_cleanup.1 waterAtoms waterBonds "o").1 (by decide)

end BondArena
